import Mathlib

/-!
# Verification of the word-search puzzle generator

Shallow embedding of `src/wordsearch/generate.py`: the `WordSearch`
placement engine (grid creation, longest-first word ordering, the
best-overlap greedy placement search, the random-letter fill phase) and
the highlight/solution formatter (`parse_solution_entry`,
`get_highlights`).

Modelling conventions:
* strings are lists of characters; `Char.toUpper` models Python's
  `str.upper` on the ASCII range the generator works with;
* the grid is a list of rows (`List (List Char)`); the blank sentinel is
  the space character, exactly as in the source;
* grid coordinates are integers, as in the source, where direction
  deltas are negative in half of the advanced directions; all reads and
  writes performed by the source are within bounds (guarded by the
  end-cell check), so the accessors below may return a default outside
  the grid without affecting faithfulness;
* the two uses of `random` in the source (`random.choice` over the tied
  best candidates and `random.choice(string.ascii_uppercase)` in the
  fill phase) are modelled by explicit oracles `pick` and `letterAt`
  passed to the constructor; theorems that depend on the choice being a
  member of the candidate list take that as a hypothesis.
-/

/-- A grid is a list of rows of single characters. -/
abbrev Grid := List (List Char)

/-- Read cell `(r, c)` of the grid; blank outside the grid.  Models
`self.grid[r][c]`, which the source only evaluates at in-bounds
coordinates. -/
def getCell (g : Grid) (r c : Int) : Char :=
  if 0 ≤ r ∧ 0 ≤ c then (g.getD r.toNat []).getD c.toNat ' ' else ' '

/-- Write cell `(r, c)` of the grid; no-op outside the grid.  Models
`self.grid[r][c] = ch`, which the source only evaluates at in-bounds
coordinates. -/
def setCell (g : Grid) (r c : Int) (ch : Char) : Grid :=
  if 0 ≤ r ∧ 0 ≤ c then g.set r.toNat ((g.getD r.toNat []).set c.toNat ch) else g

/-- Models `word.upper().replace(" ", "")` from `WordSearch.__init__`. -/
def cleanWord (w : List Char) : List Char :=
  (w.map Char.toUpper).filter (fun ch => decide (ch ≠ ' '))

/-- Models the sort key `len(w.replace(" ", ""))` from
`WordSearch.__init__` (the length of the word with spaces removed). -/
def sortKey (w : List Char) : Nat :=
  (w.filter (fun ch => decide (ch ≠ ' '))).length

/-- Stable insertion into a descending-by-key list: the new element goes
after all existing elements of greater or equal key.  Together with
`sortWordsDesc` this models Python's stable
`sorted(word_list, key=lambda w: -len(w.replace(" ", "")))`. -/
def insertDesc (x : List Char) : List (List Char) → List (List Char)
  | [] => [x]
  | y :: ys => if sortKey y < sortKey x then x :: y :: ys else y :: insertDesc x ys

/-- Stable sort by cleaned length, descending (Python's `sorted` with a
negated-length key is stable and descending by length). -/
def sortWordsDesc (l : List (List Char)) : List (List Char) :=
  l.foldl (fun acc w => insertDesc w acc) []

/-- Models `string.ascii_uppercase`. -/
def asciiUppercase : List Char :=
  "ABCDEFGHIJKLMNOPQRSTUVWXYZ".toList

/-- The basic direction set of `place_word_in_grid_basic`. -/
def basicDirections : List (Int × Int) :=
  [(0, 1), (1, 0), (1, 1)]

/-- The advanced direction set of `place_word_in_grid_advanced`. -/
def advancedDirections : List (Int × Int) :=
  [(0, 1), (0, -1), (1, 0), (-1, 0), (1, 1), (-1, -1), (1, -1), (-1, 1)]

/-- A placement candidate `(row, col, dr, dc)` as stored in
`best_positions` and in the solution records. -/
structure Cand where
  row : Int
  col : Int
  dr : Int
  dc : Int
deriving DecidableEq, Repr

/-- The inner walk of `_find_best_position`: starting at `(r, c)` and
stepping by `(dr, dc)`, check that every cell is blank or already equal
to the corresponding letter, and count the cells already equal
(`overlap`).  Returns `none` when the word does not fit. -/
def walkOverlap (g : Grid) (r c dr dc : Int) : List Char → Option Nat
  | [] => some 0
  | ch :: rest =>
    let cell := getCell g r c
    if cell = ' ' ∨ cell = ch then
      match walkOverlap g (r + dr) (c + dc) dr dc rest with
      | some o => some (o + (if cell = ch then 1 else 0))
      | none => none
    else none

/-- One candidate test of `_find_best_position`: the end-cell bounds
check followed by the fit/overlap walk.  Note the source computes
`word_length - 1` on Python integers, so for the empty word the end
cell is one step backwards from the start. -/
def checkCandidate (g : Grid) (size : Nat) (word : List Char) (row col dr dc : Int) :
    Option Nat :=
  let endRow := row + dr * ((word.length : Int) - 1)
  let endCol := col + dc * ((word.length : Int) - 1)
  if 0 ≤ endRow ∧ endRow < (size : Int) ∧ 0 ≤ endCol ∧ endCol < (size : Int) then
    walkOverlap g row col dr dc word
  else none

/-- Overlap of a candidate, or `none` when infeasible. -/
def candOverlap (g : Grid) (size : Nat) (word : List Char) (c : Cand) : Option Nat :=
  checkCandidate g size word c.row c.col c.dr c.dc

/-- The candidate enumeration order of `_find_best_position`: directions
outermost, then start row, then start column. -/
def candidatesFor (size : Nat) (directions : List (Int × Int)) : List Cand :=
  directions.flatMap fun d =>
    (List.range size).flatMap fun (row : Nat) =>
      (List.range size).map fun (col : Nat) => ⟨(row : Int), (col : Int), d.1, d.2⟩

/-- One step of the best-candidate accumulation in
`_find_best_position`: a strictly larger overlap resets the tie list, an
equal overlap appends, anything else is dropped. -/
def updateBest (g : Grid) (size : Nat) (word : List Char)
    (st : List Cand × Int) (c : Cand) : List Cand × Int :=
  match candOverlap g size word c with
  | none => st
  | some o =>
    if (o : Int) > st.2 then ([c], (o : Int))
    else if (o : Int) = st.2 then (st.1 ++ [c], st.2)
    else st

/-- The `best_positions`/`max_overlap` pair after scanning every
candidate, starting from `([], -1)` as in the source. -/
def bestPositions (g : Grid) (size : Nat) (word : List Char)
    (directions : List (Int × Int)) : List Cand × Int :=
  (candidatesFor size directions).foldl (updateBest g size word) ([], -1)

/-- The write loop at the end of `_find_best_position`: put the word's
letters into the grid along the chosen start and direction. -/
def writeWord : Grid → List Char → Int → Int → Int → Int → Grid
  | g, [], _, _, _, _ => g
  | g, ch :: rest, r, c, dr, dc => writeWord (setCell g r c ch) rest (r + dr) (c + dc) dr dc

/-- Models `_find_best_position`: scan all candidates, and if the tie
list is non-empty, choose one via the `pick` oracle (the source's
`random.choice`), write the word and return the chosen candidate and
the updated grid.  Returns `none` exactly when the source returns
`False`. -/
def find_best_position (pick : List Cand → Cand) (g : Grid) (size : Nat)
    (word : List Char) (directions : List (Int × Int)) : Option (Cand × Grid) :=
  let best := (bestPositions g size word directions).1
  if best = [] then none
  else
    let c := pick best
    some (c, writeWord g word c.row c.col c.dr c.dc)

/-- Models `place_word_in_grid_basic`. -/
def place_word_in_grid_basic (pick : List Cand → Cand) (g : Grid) (size : Nat)
    (word : List Char) : Option (Cand × Grid) :=
  find_best_position pick g size word basicDirections

/-- Models `place_word_in_grid_advanced`. -/
def place_word_in_grid_advanced (pick : List Cand → Cand) (g : Grid) (size : Nat)
    (word : List Char) : Option (Cand × Grid) :=
  find_best_position pick g size word advancedDirections

/-- Models `create_grid`: a `size × size` grid of blanks. -/
def create_grid (size : Nat) : Grid :=
  List.replicate size (List.replicate size ' ')

/-- Models `fill_empty_spaces`: every still-blank cell receives the
letter produced by the `letterAt` oracle (the source's
`random.choice(string.ascii_uppercase)`). -/
def fill_empty_spaces (size : Nat) (letterAt : Nat → Nat → Char) (g : Grid) : Grid :=
  (List.range size).foldl
    (fun g1 (row : Nat) =>
      (List.range size).foldl
        (fun g2 (col : Nat) =>
          if getCell g2 (row : Int) (col : Int) = ' '
          then setCell g2 (row : Int) (col : Int) (letterAt row col)
          else g2)
        g1)
    g

/-- Mutable state of the construction loop in `WordSearch.__init__`:
the grid, the solution records appended so far (cleaned word plus
chosen candidate, modelling `{word: f"{row},{col},{dr},{dc}"}`), and the
failed original words. -/
structure WSState where
  grid : Grid
  solution : List (List Char × Cand)
  failed : List (List Char)
deriving Repr

/-- One iteration of the word loop in `WordSearch.__init__`: clean the
word, attempt placement with the mode's direction set, and either
record the solution or append the original word to the failed list. -/
def placeStep (pick : List Cand → Cand) (size : Nat) (use_basic : Bool)
    (st : WSState) (w : List Char) : WSState :=
  match find_best_position pick st.grid size (cleanWord w)
      (if use_basic then basicDirections else advancedDirections) with
  | some (c, g2) => { st with grid := g2, solution := st.solution ++ [(cleanWord w, c)] }
  | none => { st with failed := st.failed ++ [w] }

/-- The word loop of `WordSearch.__init__` over the sorted words. -/
def placeLoop (pick : List Cand → Cand) (size : Nat) (use_basic : Bool)
    (ws : List (List Char)) (st : WSState) : WSState :=
  ws.foldl (placeStep pick size use_basic) st

/-- The puzzle object produced by `WordSearch.__init__`. -/
structure WordSearch where
  title : String
  words : List (List Char)
  size : Nat
  failed_words : List (List Char)
  solution : List (List Char × Cand)
  grid : Grid
deriving Repr

/-- Models `WordSearch.__init__`: create the blank grid, sort the words
by cleaned length (longest first, stable), attempt each in order, then
fill the remaining blanks.  The source performs no argument validation:
any `grid_size` and any word list, including empty ones, flow straight
through this construction. -/
def wordSearchInit (pick : List Cand → Cand) (letterAt : Nat → Nat → Char)
    (title : String) (word_list : List (List Char)) (grid_size : Nat)
    (use_basic : Bool) : WordSearch :=
  let st0 : WSState := ⟨create_grid grid_size, [], []⟩
  let st := placeLoop pick grid_size use_basic (sortWordsDesc word_list) st0
  { title := title
    words := word_list
    size := grid_size
    failed_words := st.failed
    solution := st.solution
    grid := fill_empty_spaces grid_size letterAt st.grid }

/-- The `Direction` enumeration of the source. -/
inductive Direction where
  | horizontal_left_to_right
  | horizontal_right_to_left
  | vertical_top_to_bottom
  | vertical_bottom_to_top
  | diagonal_top_left_to_bottom_right
  | diagonal_bottom_left_to_top_right
  | diagonal_top_right_to_bottom_left
  | diagonal_bottom_right_to_top_left
  | unknown
deriving DecidableEq, Repr

/-- The delta-to-direction chain of `parse_solution_entry`. -/
def inferDirection (dr dc : Int) : Direction :=
  if dr = 0 ∧ dc = 1 then .horizontal_left_to_right
  else if dr = 0 ∧ dc = -1 then .horizontal_right_to_left
  else if dr = 1 ∧ dc = 0 then .vertical_top_to_bottom
  else if dr = -1 ∧ dc = 0 then .vertical_bottom_to_top
  else if dr = 1 ∧ dc = 1 then .diagonal_top_left_to_bottom_right
  else if dr = -1 ∧ dc = 1 then .diagonal_bottom_left_to_top_right
  else if dr = 1 ∧ dc = -1 then .diagonal_top_right_to_bottom_left
  else if dr = -1 ∧ dc = -1 then .diagonal_bottom_right_to_top_left
  else .unknown

/-- Models `direction.name.lower()` on the `Direction` enumeration. -/
def directionString : Direction → String
  | .horizontal_left_to_right => "horizontal_left_to_right"
  | .horizontal_right_to_left => "horizontal_right_to_left"
  | .vertical_top_to_bottom => "vertical_top_to_bottom"
  | .vertical_bottom_to_top => "vertical_bottom_to_top"
  | .diagonal_top_left_to_bottom_right => "diagonal_top_left_to_bottom_right"
  | .diagonal_bottom_left_to_top_right => "diagonal_bottom_left_to_top_right"
  | .diagonal_top_right_to_bottom_left => "diagonal_top_right_to_bottom_left"
  | .diagonal_bottom_right_to_top_left => "diagonal_bottom_right_to_top_left"
  | .unknown => "unknown"

/-- A highlight record as produced by `parse_solution_entry`. -/
structure Highlight where
  word : List Char
  start : Int × Int
  direction : String
  length : Nat
deriving DecidableEq, Repr

/-- Models `parse_solution_entry` (the serialisation of the position
through `f"{row},{col},{dr},{dc}"` and `pos_str.split(",")` is the
identity on the four integers, so the record is passed directly). -/
def parse_solution_entry (word : List Char) (pos : Cand) : Highlight :=
  { word := word
    start := (pos.row, pos.col)
    direction := directionString (inferDirection pos.dr pos.dc)
    length := word.length }

/-- Models `WordSearch.get_highlights`. -/
def get_highlights (ws : WordSearch) : List Highlight :=
  ws.solution.map fun e => parse_solution_entry e.1 e.2

/-- A concrete choice oracle used to instantiate theorems: take the
first tied candidate. -/
def defaultPick (l : List Cand) : Cand :=
  l.headD ⟨0, 0, 0, 0⟩

/-- A concrete fill oracle used to instantiate theorems. -/
def defaultLetter (_ : Nat) (_ : Nat) : Char := 'A'

/-! ## Derived predicates and helper functions used by the theorems -/

/-- Well-formedness of a grid: `size` rows of `size` characters. -/
def Shape (size : Nat) (g : Grid) : Prop :=
  g.length = size ∧ ∀ row ∈ g, row.length = size

/-- In-bounds predicate for a cell. -/
def InB (size : Nat) (r c : Int) : Prop :=
  0 ≤ r ∧ r < (size : Int) ∧ 0 ≤ c ∧ c < (size : Int)

/-- One cell update of the fill phase (the body of the inner loop of
`fill_empty_spaces`). -/
def fillCellStep (letterAt : Nat → Nat → Char) (row : Nat) (g2 : Grid) (col : Nat) : Grid :=
  if getCell g2 (row : Int) (col : Int) = ' '
  then setCell g2 (row : Int) (col : Int) (letterAt row col)
  else g2

/-- One row update of the fill phase (the inner loop of
`fill_empty_spaces`). -/
def fillRowStep (size : Nat) (letterAt : Nat → Nat → Char) (g1 : Grid) (row : Nat) : Grid :=
  (List.range size).foldl (fillCellStep letterAt row) g1

/-- A direction delta taken from one of the two fixed direction sets:
non-zero, with both components in `{-1, 0, 1}`. -/
def DirOk (d : Int × Int) : Prop :=
  ¬(d.1 = 0 ∧ d.2 = 0) ∧ d.1.natAbs ≤ 1 ∧ d.2.natAbs ≤ 1

/-- An uppercase A–Z character. -/
def UpperChar (ch : Char) : Prop :=
  'A' ≤ ch ∧ ch ≤ 'Z'

/-- A word made of spaces and ASCII letters only (the inputs the
generator is designed for; cf. the non-goals of the system). -/
def AsciiWord (w : List Char) : Prop :=
  ∀ ch ∈ w, ch = ' ' ∨ ('a' ≤ ch ∧ ch ≤ 'z') ∨ ('A' ≤ ch ∧ ch ≤ 'Z')

/-- Every cell of the grid is blank or an uppercase letter. -/
def CellsOk (g : Grid) : Prop :=
  ∀ row ∈ g, ∀ ch ∈ row, ch = ' ' ∨ UpperChar ch

/-- Correctness of one solution record against a grid: the direction is
a unit delta, the recorded word has no blanks, and every traversed cell
is in bounds and holds the corresponding letter of the word. -/
def GoodRecord (size : Nat) (g : Grid) (rec : List Char × Cand) : Prop :=
  DirOk (rec.2.dr, rec.2.dc) ∧ ' ' ∉ rec.1 ∧
  ∀ i : Nat, i < rec.1.length →
    InB size (rec.2.row + rec.2.dr * i) (rec.2.col + rec.2.dc * i) ∧
    getCell g (rec.2.row + rec.2.dr * i) (rec.2.col + rec.2.dc * i) = rec.1.getD i ' '

/-- The running maximum of the overlaps of the feasible candidates in a
list, starting from a given value (the source starts from `-1`). -/
def foldMax (g : Grid) (size : Nat) (word : List Char) (l : List Cand) (m0 : Int) : Int :=
  l.foldl
    (fun acc c =>
      match candOverlap g size word c with
      | some o => max acc (o : Int)
      | none => acc)
    m0

/-- Decides whether a candidate is feasible with overlap exactly `m`. -/
def matchesMax (g : Grid) (size : Nat) (word : List Char) (m : Int) (c : Cand) : Bool :=
  match candOverlap g size word c with
  | some o => decide ((o : Int) = m)
  | none => false

/-- Decidability of `UpperChar`, used to evaluate concrete instances. -/
instance (ch : Char) : Decidable (UpperChar ch) := by
  unfold UpperChar
  infer_instance

/-- Decidability of `AsciiWord`, used to evaluate concrete instances. -/
instance (w : List Char) : Decidable (AsciiWord w) := by
  unfold AsciiWord
  infer_instance

/-! ## Basic list and cell lemmas -/

theorem listGetD_set_ne {α : Type} (l : List α) (i j : Nat) (a d : α) (h : i ≠ j) :
    (l.set i a).getD j d = l.getD j d := by
  induction l generalizing i j with
  | nil => simp
  | cons x xs ih =>
    cases i with
    | zero =>
      cases j with
      | zero => omega
      | succ j => simp [List.set]
    | succ i =>
      cases j with
      | zero => simp [List.set]
      | succ j =>
        simp only [List.set, List.getD_cons_succ]
        exact ih i j (by omega)

theorem listGetD_set_eq {α : Type} (l : List α) (i : Nat) (a d : α) (h : i < l.length) :
    (l.set i a).getD i d = a := by
  induction l generalizing i with
  | nil => simp at h
  | cons x xs ih =>
    cases i with
    | zero => simp [List.set]
    | succ i =>
      simp only [List.set, List.getD_cons_succ]
      exact ih i (by simpa using h)

theorem listSet_oob {α : Type} (l : List α) (i : Nat) (a : α) (h : l.length ≤ i) :
    l.set i a = l :=
  List.set_eq_of_length_le h

theorem shape_row {size : Nat} {g : Grid} (hg : Shape size g) (r : Nat) (hr : r < size) :
    (g.getD r []).length = size := by
  have hlen : r < g.length := by rw [hg.1]; exact hr
  rw [List.getD_eq_getElem _ _ hlen]
  exact hg.2 _ (List.getElem_mem hlen)

theorem setCell_shape {size : Nat} {g : Grid} (hg : Shape size g) (r c : Int) (ch : Char) :
    Shape size (setCell g r c ch) := by
  unfold setCell
  split
  · by_cases hlen : r.toNat < g.length
    · constructor
      · rw [List.length_set]; exact hg.1
      · intro row hrow
        rcases List.mem_or_eq_of_mem_set hrow with h | h
        · exact hg.2 _ h
        · subst h
          rw [List.length_set]
          exact shape_row hg _ (by rw [← hg.1]; exact hlen)
    · rw [listSet_oob _ _ _ (by omega)]
      exact hg
  · exact hg

theorem getCell_nonneg_eq (g : Grid) (r c : Nat) :
    getCell g (r : Int) (c : Int) = (g.getD r []).getD c ' ' := by
  simp [getCell]

theorem getCell_setCell_self {size : Nat} {g : Grid} (hg : Shape size g)
    (r c : Int) (ch : Char) (hr0 : 0 ≤ r) (hc0 : 0 ≤ c)
    (hrs : r < (size : Int)) (hcs : c < (size : Int)) :
    getCell (setCell g r c ch) r c = ch := by
  unfold getCell setCell
  rw [if_pos ⟨hr0, hc0⟩, if_pos ⟨hr0, hc0⟩]
  have hrlen : r.toNat < g.length := by rw [hg.1]; omega
  rw [listGetD_set_eq _ _ _ _ hrlen]
  have hclen : c.toNat < (g.getD r.toNat []).length := by
    rw [shape_row hg _ (by omega)]; omega
  exact listGetD_set_eq _ _ _ _ hclen

theorem getCell_setCell_other {g : Grid} (r c r' c' : Int) (ch : Char)
    (hne : ¬(r' = r ∧ c' = c)) :
    getCell (setCell g r c ch) r' c' = getCell g r' c' := by
  unfold setCell
  split
  · next hrc =>
    obtain ⟨hr0, hc0⟩ := hrc
    unfold getCell
    split
    · next hrc2 =>
      obtain ⟨hr0a, hc0a⟩ := hrc2
      by_cases hrr : r'.toNat = r.toNat
      · have hreq : r' = r := by omega
        have hcc : c.toNat ≠ c'.toNat := by
          intro hcn
          exact hne ⟨hreq, by omega⟩
        rw [hrr]
        by_cases hlen : r.toNat < g.length
        · rw [listGetD_set_eq _ _ _ _ hlen, listGetD_set_ne _ _ _ _ _ hcc]
        · rw [listSet_oob _ _ _ (by omega)]
      · rw [listGetD_set_ne _ _ _ _ _ (by omega)]
    · rfl
  · rfl

/-! ## Walk and write lemmas -/

theorem pos_shift (r dr : Int) (j : Nat) :
    r + dr + dr * (j : Int) = r + dr * ((j + 1 : Nat) : Int) := by
  push_cast
  ring

theorem path_inb {size : Nat} {row col dr dc : Int} {L : Nat}
    (hdr : dr.natAbs ≤ 1) (hdc : dc.natAbs ≤ 1)
    (hrow : 0 ≤ row) (hrow2 : row < (size : Int))
    (hcol : 0 ≤ col) (hcol2 : col < (size : Int))
    (hend1 : 0 ≤ row + dr * ((L : Int) - 1)) (hend2 : row + dr * ((L : Int) - 1) < (size : Int))
    (hend3 : 0 ≤ col + dc * ((L : Int) - 1)) (hend4 : col + dc * ((L : Int) - 1) < (size : Int))
    (i : Nat) (hi : i < L) : InB size (row + dr * i) (col + dc * i) := by
  have hdr3 : dr = -1 ∨ dr = 0 ∨ dr = 1 := by omega
  have hdc3 : dc = -1 ∨ dc = 0 ∨ dc = 1 := by omega
  unfold InB
  rcases hdr3 with h | h | h <;> rcases hdc3 with h2 | h2 | h2 <;> subst h <;> subst h2 <;>
    simp only [neg_mul, one_mul, zero_mul, add_zero, neg_neg] at * <;>
    exact ⟨by omega, by omega, by omega, by omega⟩

theorem walkOverlap_congr {g1 g2 : Grid} {dr dc : Int} :
    ∀ (word : List Char) (r c : Int),
    (∀ i : Nat, i < word.length →
      getCell g2 (r + dr * i) (c + dc * i) = getCell g1 (r + dr * i) (c + dc * i)) →
    walkOverlap g2 r c dr dc word = walkOverlap g1 r c dr dc word := by
  intro word
  induction word with
  | nil => intro r c _; rfl
  | cons ch rest ih =>
    intro r c h
    have h0 : getCell g2 r c = getCell g1 r c := by
      have := h 0 (by simp)
      simpa using this
    have hrest : walkOverlap g2 (r + dr) (c + dc) dr dc rest =
        walkOverlap g1 (r + dr) (c + dc) dr dc rest := by
      apply ih
      intro i hi
      rw [pos_shift r dr i, pos_shift c dc i]
      exact h (i + 1) (by simp; omega)
    simp only [walkOverlap]
    rw [h0, hrest]

theorem walkOverlap_cells {g : Grid} {dr dc : Int} :
    ∀ (word : List Char) (r c : Int) (o : Nat),
    walkOverlap g r c dr dc word = some o →
    ∀ (i : Nat), i < word.length →
    getCell g (r + dr * i) (c + dc * i) = ' ' ∨
      getCell g (r + dr * i) (c + dc * i) = word.getD i ' ' := by
  intro word
  induction word with
  | nil => intro r c o _ i hi; simp at hi
  | cons ch rest ih =>
    intro r c o h i hi
    simp only [walkOverlap] at h
    by_cases hcell : getCell g r c = ' ' ∨ getCell g r c = ch
    · rw [if_pos hcell] at h
      cases hrest : walkOverlap g (r + dr) (c + dc) dr dc rest with
      | none => rw [hrest] at h; simp at h
      | some o2 =>
        cases i with
        | zero => simpa using hcell
        | succ j =>
          have hj := ih (r + dr) (c + dc) o2 hrest j (by simpa using hi)
          rw [pos_shift r dr j, pos_shift c dc j] at hj
          simpa using hj
    · rw [if_neg hcell] at h
      simp at h

theorem off_path_shift {r c dr dc : Int} (hd : ¬(dr = 0 ∧ dc = 0)) :
    ∀ (j : Nat), ¬(r + dr + dr * (j : Int) = r ∧ c + dc + dc * (j : Int) = c) := by
  rintro j ⟨h1, h2⟩
  have e1 : dr * ((j : Int) + 1) = 0 := by linarith [h1]
  have e2 : dc * ((j : Int) + 1) = 0 := by linarith [h2]
  rcases mul_eq_zero.mp e1 with h | h
  · rcases mul_eq_zero.mp e2 with h' | h'
    · exact hd ⟨h, h'⟩
    · omega
  · omega

theorem writeWord_off_path :
    ∀ (word : List Char) (g : Grid) (r c dr dc r' c' : Int),
    (∀ i : Nat, i < word.length → ¬(r + dr * i = r' ∧ c + dc * i = c')) →
    getCell (writeWord g word r c dr dc) r' c' = getCell g r' c' := by
  intro word
  induction word with
  | nil => intro g r c dr dc r' c' _; rfl
  | cons ch rest ih =>
    intro g r c dr dc r' c' h
    simp only [writeWord]
    have hrest : ∀ j : Nat, j < rest.length →
        ¬(r + dr + dr * (j : Int) = r' ∧ c + dc + dc * (j : Int) = c') := by
      intro j hj
      rw [pos_shift r dr j, pos_shift c dc j]
      exact h (j + 1) (by simp; omega)
    rw [ih (setCell g r c ch) (r + dr) (c + dc) dr dc r' c' hrest]
    apply getCell_setCell_other
    intro hp
    have h0 := h 0 (by simp)
    simp only [Nat.cast_zero, mul_zero, add_zero] at h0
    exact h0 ⟨hp.1.symm, hp.2.symm⟩

theorem writeWord_shape {size : Nat} :
    ∀ (word : List Char) (g : Grid) (r c dr dc : Int),
    Shape size g → Shape size (writeWord g word r c dr dc) := by
  intro word
  induction word with
  | nil => intro g r c dr dc hg; exact hg
  | cons ch rest ih =>
    intro g r c dr dc hg
    exact ih _ _ _ _ _ (setCell_shape hg r c ch)

theorem writeWord_spec {size : Nat} :
    ∀ (word : List Char) (g : Grid) (r c dr dc : Int) (o : Nat),
    Shape size g →
    ¬(dr = 0 ∧ dc = 0) →
    walkOverlap g r c dr dc word = some o →
    (∀ i : Nat, i < word.length → InB size (r + dr * i) (c + dc * i)) →
    (∀ i : Nat, i < word.length →
      getCell (writeWord g word r c dr dc) (r + dr * i) (c + dc * i) = word.getD i ' ') ∧
    (∀ r' c' : Int, getCell (writeWord g word r c dr dc) r' c' = getCell g r' c' ∨
      getCell g r' c' = ' ') := by
  intro word
  induction word with
  | nil =>
    intro g r c dr dc o _ _ _ _
    exact ⟨fun i hi => by simp at hi, fun r' c' => Or.inl rfl⟩
  | cons ch rest ih =>
    intro g r c dr dc o hg hd hwalk hinb
    have hin0 : InB size r c := by
      have := hinb 0 (by simp)
      simpa using this
    simp only [walkOverlap] at hwalk
    by_cases hcell : getCell g r c = ' ' ∨ getCell g r c = ch
    · rw [if_pos hcell] at hwalk
      cases hrest : walkOverlap g (r + dr) (c + dc) dr dc rest with
      | none => rw [hrest] at hwalk; simp at hwalk
      | some o2 =>
        have hg1 : Shape size (setCell g r c ch) := setCell_shape hg r c ch
        have htrans : ∀ i : Nat, i < rest.length →
            getCell (setCell g r c ch) (r + dr + dr * i) (c + dc + dc * i) =
            getCell g (r + dr + dr * i) (c + dc + dc * i) := by
          intro i _
          exact getCell_setCell_other _ _ _ _ _ (off_path_shift hd i)
        have hrest1 : walkOverlap (setCell g r c ch) (r + dr) (c + dc) dr dc rest = some o2 := by
          rw [walkOverlap_congr rest (r + dr) (c + dc) htrans]
          exact hrest
        have hinb1 : ∀ i : Nat, i < rest.length →
            InB size (r + dr + dr * i) (c + dc + dc * i) := by
          intro i hi
          rw [pos_shift r dr i, pos_shift c dc i]
          exact hinb (i + 1) (by simp; omega)
        have IH := ih (setCell g r c ch) (r + dr) (c + dc) dr dc o2 hg1 hd hrest1 hinb1
        have hself : getCell (setCell g r c ch) r c = ch :=
          getCell_setCell_self hg r c ch hin0.1 hin0.2.2.1 hin0.2.1 hin0.2.2.2
        have hwrite0 : getCell (writeWord (setCell g r c ch) rest (r + dr) (c + dc) dr dc) r c = ch := by
          rw [writeWord_off_path rest _ (r + dr) (c + dc) dr dc r c
            (fun j _ => off_path_shift hd j)]
          exact hself
        constructor
        · intro i hi
          cases i with
          | zero =>
            simp only [Nat.cast_zero, mul_zero, add_zero, List.getD_cons_zero]
            simpa only [writeWord] using hwrite0
          | succ j =>
            have hj := IH.1 j (by simpa using hi)
            rw [pos_shift r dr j, pos_shift c dc j] at hj
            simpa only [writeWord, List.getD_cons_succ] using hj
        · intro r' c'
          by_cases hp : r' = r ∧ c' = c
          · obtain ⟨hp1, hp2⟩ := hp
            subst hp1
            subst hp2
            rcases hcell with hb | hb
            · exact Or.inr hb
            · left
              rw [hb]
              simpa only [writeWord] using hwrite0
          · have hIH := IH.2 r' c'
            have hother : getCell (setCell g r c ch) r' c' = getCell g r' c' :=
              getCell_setCell_other _ _ _ _ _ hp
            simp only [writeWord]
            rcases hIH with h | h
            · left; rw [h, hother]
            · rw [hother] at h
              exact Or.inr h
    · rw [if_neg hcell] at hwalk
      simp at hwalk

/-! ## Fill phase lemmas -/

theorem fill_eq (size : Nat) (letterAt : Nat → Nat → Char) (g : Grid) :
    fill_empty_spaces size letterAt g = (List.range size).foldl (fillRowStep size letterAt) g :=
  rfl

theorem fillCellStep_shape {size : Nat} {g : Grid} (hg : Shape size g)
    (letterAt : Nat → Nat → Char) (row col : Nat) :
    Shape size (fillCellStep letterAt row g col) := by
  unfold fillCellStep
  split
  · exact setCell_shape hg _ _ _
  · exact hg

theorem fillCell_foldl_shape {size : Nat} (letterAt : Nat → Nat → Char) (row : Nat) :
    ∀ (cols : List Nat) (g : Grid), Shape size g →
    Shape size (cols.foldl (fillCellStep letterAt row) g) := by
  intro cols
  induction cols with
  | nil => intro g hg; exact hg
  | cons x xs ih =>
    intro g hg
    exact ih _ (fillCellStep_shape hg letterAt row x)

theorem fillRowStep_shape {size : Nat} {g : Grid} (hg : Shape size g)
    (letterAt : Nat → Nat → Char) (row : Nat) :
    Shape size (fillRowStep size letterAt g row) :=
  fillCell_foldl_shape letterAt row _ g hg

theorem fillCellStep_getCell {size : Nat} {g : Grid} (hg : Shape size g)
    (letterAt : Nat → Nat → Char) (row col : Nat) (hrow : row < size) (hcol : col < size)
    (a b : Nat) :
    getCell (fillCellStep letterAt row g col) (a : Int) (b : Int) =
      if a = row ∧ b = col ∧ getCell g (row : Int) (col : Int) = ' '
      then letterAt row col else getCell g (a : Int) (b : Int) := by
  unfold fillCellStep
  by_cases hb : getCell g (row : Int) (col : Int) = ' '
  · rw [if_pos hb]
    by_cases hab : a = row ∧ b = col
    · obtain ⟨h1, h2⟩ := hab
      subst h1; subst h2
      rw [if_pos ⟨rfl, rfl, hb⟩]
      exact getCell_setCell_self hg _ _ _ (by positivity) (by positivity)
        (by exact_mod_cast hrow) (by exact_mod_cast hcol)
    · rw [if_neg (by tauto)]
      apply getCell_setCell_other
      intro hp
      exact hab ⟨by exact_mod_cast hp.1, by exact_mod_cast hp.2⟩
  · rw [if_neg hb, if_neg (by tauto)]

theorem fillCell_foldl_getCell {size : Nat} (letterAt : Nat → Nat → Char) (row : Nat)
    (hrow : row < size) :
    ∀ (cols : List Nat) (g : Grid), Shape size g → (∀ x ∈ cols, x < size) →
    ∀ (a b : Nat),
    getCell (cols.foldl (fillCellStep letterAt row) g) (a : Int) (b : Int) =
      if a = row ∧ b ∈ cols ∧ getCell g (a : Int) (b : Int) = ' '
      then letterAt row b else getCell g (a : Int) (b : Int) := by
  intro cols
  induction cols with
  | nil => intro g hg _ a b; simp
  | cons x xs ih =>
    intro g hg hcols a b
    have hx : x < size := hcols x (List.mem_cons_self x xs)
    rw [List.foldl_cons]
    rw [ih (fillCellStep letterAt row g x) (fillCellStep_shape hg letterAt row x)
      (fun y hy => hcols y (List.mem_cons_of_mem x hy)) a b]
    rw [fillCellStep_getCell hg letterAt row x hrow hx a b]
    by_cases h1 : a = row <;> by_cases h2 : b = x <;>
      by_cases h3 : getCell g (a : Int) (b : Int) = ' ' <;>
      by_cases h4 : letterAt row x = ' ' <;>
      by_cases h5 : b ∈ xs <;>
      simp_all [List.mem_cons]

theorem fillRowStep_getCell {size : Nat} {g : Grid} (hg : Shape size g)
    (letterAt : Nat → Nat → Char) (row : Nat) (hrow : row < size) (a b : Nat) :
    getCell (fillRowStep size letterAt g row) (a : Int) (b : Int) =
      if a = row ∧ b < size ∧ getCell g (a : Int) (b : Int) = ' '
      then letterAt row b else getCell g (a : Int) (b : Int) := by
  unfold fillRowStep
  rw [fillCell_foldl_getCell letterAt row hrow (List.range size) g hg
    (fun x hx => List.mem_range.mp hx) a b]
  simp [List.mem_range]

theorem fillRow_foldl_getCell {size : Nat} (letterAt : Nat → Nat → Char) :
    ∀ (rows : List Nat) (g : Grid), Shape size g → (∀ x ∈ rows, x < size) →
    ∀ (a b : Nat),
    getCell (rows.foldl (fillRowStep size letterAt) g) (a : Int) (b : Int) =
      if a ∈ rows ∧ b < size ∧ getCell g (a : Int) (b : Int) = ' '
      then letterAt a b else getCell g (a : Int) (b : Int) := by
  intro rows
  induction rows with
  | nil => intro g hg _ a b; simp
  | cons x xs ih =>
    intro g hg hrows a b
    have hx : x < size := hrows x (List.mem_cons_self x xs)
    rw [List.foldl_cons]
    rw [ih (fillRowStep size letterAt g x) (fillRowStep_shape hg letterAt x)
      (fun y hy => hrows y (List.mem_cons_of_mem x hy)) a b]
    rw [fillRowStep_getCell hg letterAt x hx a b]
    by_cases h1 : a = x
    · subst h1
      by_cases h2 : b < size
      · by_cases h3 : getCell g (a : Int) (b : Int) = ' '
        · by_cases h4 : letterAt a b = ' ' <;> by_cases h5 : a ∈ xs <;>
            simp_all [List.mem_cons]
        · simp_all [List.mem_cons]
      · simp_all [List.mem_cons]
    · by_cases h5 : a ∈ xs <;> simp_all [List.mem_cons]

theorem fill_getCell {size : Nat} {g : Grid} (hg : Shape size g)
    (letterAt : Nat → Nat → Char) (a b : Nat) :
    getCell (fill_empty_spaces size letterAt g) (a : Int) (b : Int) =
      if a < size ∧ b < size ∧ getCell g (a : Int) (b : Int) = ' '
      then letterAt a b else getCell g (a : Int) (b : Int) := by
  rw [fill_eq]
  rw [fillRow_foldl_getCell letterAt (List.range size) g hg
    (fun x hx => List.mem_range.mp hx) a b]
  simp [List.mem_range]

theorem fillRow_foldl_shape {size : Nat} (letterAt : Nat → Nat → Char) :
    ∀ (rows : List Nat) (g : Grid), Shape size g →
    Shape size (rows.foldl (fillRowStep size letterAt) g) := by
  intro rows
  induction rows with
  | nil => intro g hg; exact hg
  | cons x xs ih =>
    intro g hg
    exact ih _ (fillRowStep_shape hg letterAt x)

theorem fill_shape {size : Nat} {g : Grid} (hg : Shape size g)
    (letterAt : Nat → Nat → Char) :
    Shape size (fill_empty_spaces size letterAt g) := by
  rw [fill_eq]
  exact fillRow_foldl_shape letterAt (List.range size) g hg

theorem fill_preserves_nonblank {size : Nat} {g : Grid} (hg : Shape size g)
    (letterAt : Nat → Nat → Char) (r c : Int)
    (h : getCell g r c ≠ ' ') :
    getCell (fill_empty_spaces size letterAt g) r c = getCell g r c := by
  by_cases hr : 0 ≤ r ∧ 0 ≤ c
  · obtain ⟨hr0, hc0⟩ := hr
    have hr' : r = ((r.toNat : Nat) : Int) := by omega
    have hc' : c = ((c.toNat : Nat) : Int) := by omega
    rw [hr', hc'] at h ⊢
    rw [fill_getCell hg letterAt r.toNat c.toNat]
    rw [if_neg (fun hcon => h hcon.2.2)]
  · have : getCell g r c = ' ' := by
      unfold getCell
      rw [if_neg hr]
    exact absurd this h

theorem create_grid_shape (size : Nat) : Shape size (create_grid size) := by
  unfold create_grid Shape
  constructor
  · exact List.length_replicate _ _
  · intro row hrow
    rw [List.eq_of_mem_replicate hrow]
    exact List.length_replicate _ _

theorem create_grid_blank (size : Nat) (r c : Int) : getCell (create_grid size) r c = ' ' := by
  unfold getCell create_grid
  split
  · have h1 : (List.replicate size (List.replicate size ' ')).getD r.toNat [] =
        List.replicate size ' ' ∨
        (List.replicate size (List.replicate size ' ')).getD r.toNat [] = [] := by
      by_cases hi : r.toNat < size
      · left
        rw [List.getD_eq_getElem _ _ (by simpa using hi)]
        exact List.getElem_replicate _ _
      · right
        rw [List.getD_eq_default _ _ (by simp only [List.length_replicate]; omega)]
    rcases h1 with h | h <;> rw [h]
    · by_cases hc : c.toNat < size
      · rw [List.getD_eq_getElem _ _ (by simpa using hc)]
        exact List.getElem_replicate _ _
      · rw [List.getD_eq_default _ _ (by simp only [List.length_replicate]; omega)]
    · simp
  · rfl

/-! ## Best-candidate fold characterization -/

theorem foldMax_cons_none {g : Grid} {size : Nat} {word : List Char} {c : Cand}
    {l : List Cand} {m0 : Int} (hov : candOverlap g size word c = none) :
    foldMax g size word (c :: l) m0 = foldMax g size word l m0 := by
  unfold foldMax
  rw [List.foldl_cons]
  congr 1
  rw [hov]

theorem foldMax_cons_some {g : Grid} {size : Nat} {word : List Char} {c : Cand}
    {l : List Cand} {m0 : Int} {o : Nat} (hov : candOverlap g size word c = some o) :
    foldMax g size word (c :: l) m0 = foldMax g size word l (max m0 (o : Int)) := by
  unfold foldMax
  rw [List.foldl_cons]
  congr 1
  rw [hov]

theorem updateBest_none {g : Grid} {size : Nat} {word : List Char} {b0 : List Cand}
    {m0 : Int} {c : Cand} (hov : candOverlap g size word c = none) :
    updateBest g size word (b0, m0) c = (b0, m0) := by
  unfold updateBest
  rw [hov]

theorem updateBest_some {g : Grid} {size : Nat} {word : List Char} {b0 : List Cand}
    {m0 : Int} {c : Cand} {o : Nat} (hov : candOverlap g size word c = some o) :
    updateBest g size word (b0, m0) c =
      if (o : Int) > m0 then ([c], (o : Int))
      else if (o : Int) = m0 then (b0 ++ [c], m0) else (b0, m0) := by
  unfold updateBest
  rw [hov]

theorem matchesMax_none {g : Grid} {size : Nat} {word : List Char} {m : Int} {c : Cand}
    (hov : candOverlap g size word c = none) :
    matchesMax g size word m c = false := by
  unfold matchesMax
  rw [hov]

theorem matchesMax_some {g : Grid} {size : Nat} {word : List Char} {m : Int} {c : Cand}
    {o : Nat} (hov : candOverlap g size word c = some o) :
    matchesMax g size word m c = decide ((o : Int) = m) := by
  unfold matchesMax
  rw [hov]

theorem foldMax_le (g : Grid) (size : Nat) (word : List Char) :
    ∀ (l : List Cand) (m0 : Int), m0 ≤ foldMax g size word l m0 := by
  intro l
  induction l with
  | nil => intro m0; exact le_refl m0
  | cons c l ih =>
    intro m0
    cases hov : candOverlap g size word c with
    | none => rw [foldMax_cons_none hov]; exact ih m0
    | some o =>
      rw [foldMax_cons_some hov]
      calc m0 ≤ max m0 (o : Int) := le_max_left _ _
        _ ≤ _ := ih _

theorem foldMax_ge (g : Grid) (size : Nat) (word : List Char) :
    ∀ (l : List Cand) (m0 : Int) (c : Cand), c ∈ l →
    ∀ (o : Nat), candOverlap g size word c = some o → (o : Int) ≤ foldMax g size word l m0 := by
  intro l
  induction l with
  | nil => intro m0 c hc; simp at hc
  | cons x l ih =>
    intro m0 c hc o ho
    rcases List.mem_cons.mp hc with h | h
    · subst h
      rw [foldMax_cons_some ho]
      calc (o : Int) ≤ max m0 (o : Int) := le_max_right _ _
        _ ≤ _ := foldMax_le g size word l _
    · cases hov : candOverlap g size word x with
      | none => rw [foldMax_cons_none hov]; exact ih _ c h o ho
      | some o2 => rw [foldMax_cons_some hov]; exact ih _ c h o ho

theorem foldMax_achieved (g : Grid) (size : Nat) (word : List Char) :
    ∀ (l : List Cand) (m0 : Int),
    foldMax g size word l m0 = m0 ∨
    ∃ c ∈ l, ∃ o : Nat, candOverlap g size word c = some o ∧
      (o : Int) = foldMax g size word l m0 := by
  intro l
  induction l with
  | nil => intro m0; exact Or.inl rfl
  | cons x l ih =>
    intro m0
    cases hov : candOverlap g size word x with
    | none =>
      rw [foldMax_cons_none hov]
      rcases ih m0 with h | ⟨c, hc, o, ho, he⟩
      · exact Or.inl h
      · exact Or.inr ⟨c, List.mem_cons_of_mem _ hc, o, ho, he⟩
    | some o =>
      rw [foldMax_cons_some hov]
      rcases ih (max m0 (o : Int)) with h | ⟨c, hc, o2, ho2, he⟩
      · rcases le_or_lt (o : Int) m0 with hle | hlt
        · rw [max_eq_left hle] at h ⊢
          exact Or.inl h
        · rw [max_eq_right (le_of_lt hlt)] at h ⊢
          exact Or.inr ⟨x, List.mem_cons_self x l, o, hov, h.symm⟩
      · exact Or.inr ⟨c, List.mem_cons_of_mem _ hc, o2, ho2, he⟩

theorem updateBest_foldl (g : Grid) (size : Nat) (word : List Char) :
    ∀ (l : List Cand) (b0 : List Cand) (m0 : Int),
    (l.foldl (updateBest g size word) (b0, m0)).2 = foldMax g size word l m0 ∧
    (l.foldl (updateBest g size word) (b0, m0)).1 =
      (if m0 = foldMax g size word l m0 then b0 else []) ++
        l.filter (matchesMax g size word (foldMax g size word l m0)) := by
  intro l
  induction l with
  | nil =>
    intro b0 m0
    constructor
    · rfl
    · simp [foldMax]
  | cons c l ih =>
    intro b0 m0
    rw [List.foldl_cons]
    cases hov : candOverlap g size word c with
    | none =>
      rw [updateBest_none hov, foldMax_cons_none hov]
      refine ⟨(ih b0 m0).1, ?_⟩
      rw [(ih b0 m0).2]
      rw [List.filter_cons_of_neg (by rw [matchesMax_none hov]; exact Bool.false_ne_true)]
    | some o =>
      rw [updateBest_some hov, foldMax_cons_some hov]
      rcases lt_trichotomy m0 (o : Int) with hlt | heq | hgt
      · rw [if_pos hlt]
        have hmax : max m0 (o : Int) = (o : Int) := max_eq_right (le_of_lt hlt)
        rw [hmax]
        set M := foldMax g size word l (o : Int) with hM
        have hoM : (o : Int) ≤ M := foldMax_le g size word l _
        have hm0M : m0 ≠ M := by omega
        refine ⟨(ih [c] (o : Int)).1, ?_⟩
        rw [(ih [c] (o : Int)).2]
        rw [if_neg hm0M]
        by_cases he : (o : Int) = M
        · rw [if_pos he]
          rw [List.filter_cons_of_pos (by rw [matchesMax_some hov]; simpa using he)]
          rfl
        · rw [if_neg he]
          rw [List.filter_cons_of_neg
            (by rw [matchesMax_some hov]; simpa using he)]
      · rw [if_neg (by omega), if_pos heq.symm]
        have hmax : max m0 (o : Int) = m0 := max_eq_left (le_of_eq heq.symm)
        rw [hmax]
        set M := foldMax g size word l m0 with hM
        refine ⟨(ih (b0 ++ [c]) m0).1, ?_⟩
        rw [(ih (b0 ++ [c]) m0).2]
        by_cases he : m0 = M
        · rw [if_pos he, if_pos he]
          rw [List.filter_cons_of_pos (by rw [matchesMax_some hov]; simp; omega)]
          rw [List.append_assoc, List.singleton_append]
        · rw [if_neg he, if_neg he]
          rw [List.filter_cons_of_neg (by rw [matchesMax_some hov]; simp; omega)]
      · rw [if_neg (by omega), if_neg (by omega)]
        have hmax : max m0 (o : Int) = m0 := max_eq_left (le_of_lt hgt)
        rw [hmax]
        set M := foldMax g size word l m0 with hM
        have hm0M : m0 ≤ M := foldMax_le g size word l _
        refine ⟨(ih b0 m0).1, ?_⟩
        rw [(ih b0 m0).2]
        rw [List.filter_cons_of_neg (by rw [matchesMax_some hov]; simp; omega)]

theorem bestPositions_snd (g : Grid) (size : Nat) (word : List Char)
    (dirs : List (Int × Int)) :
    (bestPositions g size word dirs).2 =
      foldMax g size word (candidatesFor size dirs) (-1) :=
  (updateBest_foldl g size word (candidatesFor size dirs) [] (-1)).1

theorem bestPositions_fst (g : Grid) (size : Nat) (word : List Char)
    (dirs : List (Int × Int)) :
    (bestPositions g size word dirs).1 =
      (candidatesFor size dirs).filter
        (matchesMax g size word (foldMax g size word (candidatesFor size dirs) (-1))) := by
  have h := (updateBest_foldl g size word (candidatesFor size dirs) [] (-1)).2
  unfold bestPositions
  rw [h]
  split <;> rfl

/-! ## Properties of find_best_position -/

theorem candidatesFor_mem {size : Nat} {dirs : List (Int × Int)} {c : Cand}
    (h : c ∈ candidatesFor size dirs) :
    (c.dr, c.dc) ∈ dirs ∧ 0 ≤ c.row ∧ c.row < (size : Int) ∧
      0 ≤ c.col ∧ c.col < (size : Int) := by
  unfold candidatesFor at h
  rw [List.mem_flatMap] at h
  obtain ⟨d, hd, h⟩ := h
  rw [List.mem_flatMap] at h
  obtain ⟨row, hrow, h⟩ := h
  rw [List.mem_map] at h
  obtain ⟨col, hcol, heq⟩ := h
  rw [List.mem_range] at hrow hcol
  subst heq
  exact ⟨by simpa using hd, by positivity, by simpa using hrow,
    by positivity, by simpa using hcol⟩

theorem candOverlap_some_unpack {g : Grid} {size : Nat} {word : List Char} {c : Cand}
    {o : Nat} (h : candOverlap g size word c = some o) :
    walkOverlap g c.row c.col c.dr c.dc word = some o ∧
    0 ≤ c.row + c.dr * ((word.length : Int) - 1) ∧
    c.row + c.dr * ((word.length : Int) - 1) < (size : Int) ∧
    0 ≤ c.col + c.dc * ((word.length : Int) - 1) ∧
    c.col + c.dc * ((word.length : Int) - 1) < (size : Int) := by
  simp only [candOverlap, checkCandidate] at h
  split at h
  · next hcond => exact ⟨h, hcond.1, hcond.2.1, hcond.2.2.1, hcond.2.2.2⟩
  · simp at h

theorem best_mem_spec {g : Grid} {size : Nat} {word : List Char} {dirs : List (Int × Int)}
    {c : Cand} (h : c ∈ (bestPositions g size word dirs).1) :
    c ∈ candidatesFor size dirs ∧
    ∃ o : Nat, candOverlap g size word c = some o ∧
      (o : Int) = (bestPositions g size word dirs).2 := by
  rw [bestPositions_fst] at h
  have hmem := List.mem_of_mem_filter h
  have hmatch := List.of_mem_filter h
  refine ⟨hmem, ?_⟩
  cases hov : candOverlap g size word c with
  | none => rw [matchesMax_none hov] at hmatch; exact absurd hmatch (by simp)
  | some o =>
    rw [matchesMax_some hov] at hmatch
    refine ⟨o, rfl, ?_⟩
    rw [bestPositions_snd]
    exact of_decide_eq_true hmatch

theorem find_none_iff {pick : List Cand → Cand} {g : Grid} {size : Nat}
    {word : List Char} {dirs : List (Int × Int)} :
    find_best_position pick g size word dirs = none ↔
      (bestPositions g size word dirs).1 = [] := by
  unfold find_best_position
  by_cases hb : (bestPositions g size word dirs).1 = []
  · rw [if_pos hb]
    simp [hb]
  · rw [if_neg hb]
    simp [hb]

theorem find_spec {pick : List Cand → Cand} {g : Grid} {size : Nat} {word : List Char}
    {dirs : List (Int × Int)} {c : Cand} {g2 : Grid}
    (Hpick : ∀ l : List Cand, l ≠ [] → pick l ∈ l)
    (h : find_best_position pick g size word dirs = some (c, g2)) :
    c ∈ (bestPositions g size word dirs).1 ∧
    g2 = writeWord g word c.row c.col c.dr c.dc := by
  unfold find_best_position at h
  by_cases hb : (bestPositions g size word dirs).1 = []
  · rw [if_pos hb] at h
    simp at h
  · rw [if_neg hb] at h
    simp only [Option.some.injEq, Prod.mk.injEq] at h
    obtain ⟨hc, hg⟩ := h
    subst hc
    exact ⟨Hpick _ hb, hg.symm⟩

theorem find_some_of_feasible {g : Grid} {size : Nat} {word : List Char}
    {dirs : List (Int × Int)} {c0 : Cand} {o0 : Nat}
    (hmem : c0 ∈ candidatesFor size dirs)
    (hov : candOverlap g size word c0 = some o0) :
    (bestPositions g size word dirs).1 ≠ [] := by
  have hge : (o0 : Int) ≤ foldMax g size word (candidatesFor size dirs) (-1) :=
    foldMax_ge g size word _ _ c0 hmem o0 hov
  rcases foldMax_achieved g size word (candidatesFor size dirs) (-1) with h | ⟨c, hc, o, ho, he⟩
  · omega
  · rw [bestPositions_fst]
    apply List.ne_nil_of_mem (a := c)
    apply List.mem_filter_of_mem hc
    rw [matchesMax_some ho]
    simpa using he

theorem find_none_of_no_feasible {pick : List Cand → Cand} {g : Grid} {size : Nat}
    {word : List Char} {dirs : List (Int × Int)}
    (h : ∀ c ∈ candidatesFor size dirs, candOverlap g size word c = none) :
    find_best_position pick g size word dirs = none := by
  rw [find_none_iff, bestPositions_fst]
  apply List.filter_eq_nil_iff.mpr
  intro c hc
  rw [matchesMax_none (h c hc)]
  simp

/-! ## Character and cleaned-word lemmas -/

theorem char_toNat_ofNat (n : Nat) (h : n.isValidChar) : (Char.ofNat n).toNat = n := by
  rw [Char.ofNat, dif_pos h]
  rfl

theorem toUpper_of_lower {c : Char} (h1 : 'a' ≤ c) (h2 : c ≤ 'z') : UpperChar c.toUpper := by
  have h1' : 97 ≤ c.toNat := h1
  have h2' : c.toNat ≤ 122 := h2
  unfold Char.toUpper
  rw [if_pos (by omega)]
  have hv : Nat.isValidChar (c.toNat - 32) := by left; omega
  have ht : (Char.ofNat (c.toNat - 32)).toNat = c.toNat - 32 := char_toNat_ofNat _ hv
  constructor
  · show ('A').toNat ≤ (Char.ofNat (c.toNat - 32)).toNat
    have hA : ('A').toNat = 65 := rfl
    rw [ht, hA]; omega
  · show (Char.ofNat (c.toNat - 32)).toNat ≤ ('Z').toNat
    have hZ : ('Z').toNat = 90 := rfl
    rw [ht, hZ]; omega

theorem toUpper_of_upper {c : Char} (h1 : 'A' ≤ c) (h2 : c ≤ 'Z') : c.toUpper = c := by
  have h1' : 65 ≤ c.toNat := h1
  have h2' : c.toNat ≤ 90 := h2
  unfold Char.toUpper
  rw [if_neg (by omega)]

theorem cleanWord_no_blank (w : List Char) : ' ' ∉ cleanWord w := by
  intro h
  unfold cleanWord at h
  have := List.of_mem_filter h
  simp at this

theorem cleanWord_getD_ne_blank {w : List Char} {i : Nat} (hi : i < (cleanWord w).length) :
    (cleanWord w).getD i ' ' ≠ ' ' := by
  rw [List.getD_eq_getElem _ _ hi]
  intro h
  exact cleanWord_no_blank w (h ▸ List.getElem_mem hi)

theorem cleanWord_upper {w : List Char} (hw : AsciiWord w) :
    ∀ ch ∈ cleanWord w, UpperChar ch := by
  intro ch hch
  unfold cleanWord at hch
  have hne := List.of_mem_filter hch
  have hmem := List.mem_of_mem_filter hch
  rw [List.mem_map] at hmem
  obtain ⟨a, ha, heq⟩ := hmem
  subst heq
  rcases hw a ha with h | h | h
  · subst h
    exact absurd (by decide : (' ').toUpper = ' ') (by simpa using hne)
  · exact toUpper_of_lower h.1 h.2
  · rw [toUpper_of_upper h.1 h.2]
    exact h

/-! ## Construction loop lemmas -/

theorem dirs_ok (use_basic : Bool) :
    ∀ d ∈ (if use_basic then basicDirections else advancedDirections), DirOk d := by
  cases use_basic <;> intro d hd <;>
    simp only [if_true, if_false, Bool.false_eq_true] at hd <;>
    fin_cases hd <;> exact ⟨by decide, by decide, by decide⟩

theorem find_some_grid {pick : List Cand → Cand} {g : Grid} {size : Nat} {word : List Char}
    {dirs : List (Int × Int)} {c : Cand} {g2 : Grid}
    (h : find_best_position pick g size word dirs = some (c, g2)) :
    g2 = writeWord g word c.row c.col c.dr c.dc := by
  unfold find_best_position at h
  by_cases hb : (bestPositions g size word dirs).1 = []
  · rw [if_pos hb] at h
    simp at h
  · rw [if_neg hb] at h
    simp only [Option.some.injEq, Prod.mk.injEq] at h
    obtain ⟨hc, hg⟩ := h
    subst hc
    exact hg.symm

theorem placeStep_none {pick : List Cand → Cand} {size : Nat} {use_basic : Bool}
    {st : WSState} {w : List Char}
    (h : find_best_position pick st.grid size (cleanWord w)
      (if use_basic then basicDirections else advancedDirections) = none) :
    placeStep pick size use_basic st w = { st with failed := st.failed ++ [w] } := by
  unfold placeStep
  rw [h]

theorem placeStep_some {pick : List Cand → Cand} {size : Nat} {use_basic : Bool}
    {st : WSState} {w : List Char} {c : Cand} {g2 : Grid}
    (h : find_best_position pick st.grid size (cleanWord w)
      (if use_basic then basicDirections else advancedDirections) = some (c, g2)) :
    placeStep pick size use_basic st w =
      { st with grid := g2, solution := st.solution ++ [(cleanWord w, c)] } := by
  unfold placeStep
  rw [h]

theorem placeStep_shape {pick : List Cand → Cand} {size : Nat} {use_basic : Bool}
    {st : WSState} {w : List Char} (hshape : Shape size st.grid) :
    Shape size (placeStep pick size use_basic st w).grid := by
  cases hfind : find_best_position pick st.grid size (cleanWord w)
      (if use_basic then basicDirections else advancedDirections) with
  | none => rw [placeStep_none hfind]; exact hshape
  | some cg =>
    obtain ⟨c, g2⟩ := cg
    rw [placeStep_some hfind]
    have hg2 := find_some_grid hfind
    show Shape size g2
    rw [hg2]
    exact writeWord_shape _ _ _ _ _ _ hshape

theorem placeStep_goodRecords {pick : List Cand → Cand} {size : Nat} {use_basic : Bool}
    {st : WSState} {w : List Char}
    (Hpick : ∀ l : List Cand, l ≠ [] → pick l ∈ l)
    (hshape : Shape size st.grid)
    (hrecs : ∀ rec ∈ st.solution, GoodRecord size st.grid rec) :
    ∀ rec ∈ (placeStep pick size use_basic st w).solution,
      GoodRecord size (placeStep pick size use_basic st w).grid rec := by
  cases hfind : find_best_position pick st.grid size (cleanWord w)
      (if use_basic then basicDirections else advancedDirections) with
  | none => rw [placeStep_none hfind]; exact hrecs
  | some cg =>
    obtain ⟨c, g2⟩ := cg
    rw [placeStep_some hfind]
    have ⟨hcmem, hg2⟩ := find_spec Hpick hfind
    have ⟨hcand, o, hov, _⟩ := best_mem_spec hcmem
    have ⟨hdirmem, hrow0, hrow1, hcol0, hcol1⟩ := candidatesFor_mem hcand
    have hdo : DirOk (c.dr, c.dc) := dirs_ok use_basic _ hdirmem
    have ⟨hwalk, he1, he2, he3, he4⟩ := candOverlap_some_unpack hov
    have hinb : ∀ i : Nat, i < (cleanWord w).length →
        InB size (c.row + c.dr * i) (c.col + c.dc * i) := by
      intro i hi
      exact path_inb hdo.2.1 hdo.2.2 hrow0 hrow1 hcol0 hcol1 he1 he2 he3 he4 i hi
    have hws := writeWord_spec (cleanWord w) st.grid c.row c.col c.dr c.dc o
      hshape hdo.1 hwalk hinb
    intro rec hrec
    rcases List.mem_append.mp hrec with hold | hnew
    · have hgr := hrecs rec hold
      refine ⟨hgr.1, hgr.2.1, ?_⟩
      intro i hi
      refine ⟨(hgr.2.2 i hi).1, ?_⟩
      have hcellold := (hgr.2.2 i hi).2
      rw [hg2]
      rcases hws.2 (rec.2.row + rec.2.dr * i) (rec.2.col + rec.2.dc * i) with heq | hblank
      · rw [heq]
        exact hcellold
      · exfalso
        rw [hcellold] at hblank
        have : rec.1.getD i ' ' ∈ rec.1 := by
          rw [List.getD_eq_getElem _ _ hi]
          exact List.getElem_mem hi
        rw [hblank] at this
        exact hgr.2.1 this
    · rw [List.mem_singleton] at hnew
      subst hnew
      refine ⟨hdo, cleanWord_no_blank w, ?_⟩
      intro i hi
      refine ⟨hinb i hi, ?_⟩
      rw [hg2]
      exact hws.1 i hi

theorem placeLoop_shape {pick : List Cand → Cand} {size : Nat} {use_basic : Bool} :
    ∀ (ws : List (List Char)) (st : WSState), Shape size st.grid →
    Shape size (placeLoop pick size use_basic ws st).grid := by
  intro ws
  induction ws with
  | nil => intro st h; exact h
  | cons w ws ih =>
    intro st h
    exact ih _ (placeStep_shape h)

theorem placeLoop_goodRecords {pick : List Cand → Cand} {size : Nat} {use_basic : Bool}
    (Hpick : ∀ l : List Cand, l ≠ [] → pick l ∈ l) :
    ∀ (ws : List (List Char)) (st : WSState), Shape size st.grid →
    (∀ rec ∈ st.solution, GoodRecord size st.grid rec) →
    ∀ rec ∈ (placeLoop pick size use_basic ws st).solution,
      GoodRecord size (placeLoop pick size use_basic ws st).grid rec := by
  intro ws
  induction ws with
  | nil => intro st _ h; exact h
  | cons w ws ih =>
    intro st hshape hrecs
    exact ih _ (placeStep_shape hshape) (placeStep_goodRecords Hpick hshape hrecs)

/-! ## Cell alphabet lemmas and loop membership lemmas -/

theorem setCell_cellsOk {g : Grid} {r c : Int} {ch : Char}
    (hg : CellsOk g) (hch : UpperChar ch) : CellsOk (setCell g r c ch) := by
  unfold setCell
  split
  · by_cases hlen : r.toNat < g.length
    · intro row hrow
      rcases List.mem_or_eq_of_mem_set hrow with h | h
      · exact hg _ h
      · subst h
        intro x hx
        rcases List.mem_or_eq_of_mem_set hx with h2 | h2
        · refine hg (g.getD r.toNat []) ?_ x h2
          rw [List.getD_eq_getElem _ _ hlen]
          exact List.getElem_mem hlen
        · subst h2
          exact Or.inr hch
    · rw [listSet_oob _ _ _ (by omega)]
      exact hg
  · exact hg

theorem writeWord_cellsOk :
    ∀ (word : List Char) (g : Grid) (r c dr dc : Int),
    CellsOk g → (∀ ch ∈ word, UpperChar ch) →
    CellsOk (writeWord g word r c dr dc) := by
  intro word
  induction word with
  | nil => intro g r c dr dc hg _; exact hg
  | cons ch rest ih =>
    intro g r c dr dc hg hword
    exact ih _ _ _ _ _ (setCell_cellsOk hg (hword ch (List.mem_cons_self _ _)))
      (fun x hx => hword x (List.mem_cons_of_mem _ hx))

theorem getCell_cases {size : Nat} {g : Grid} (hg : Shape size g) (a b : Nat) :
    getCell g (a : Int) (b : Int) = ' ' ∨
    ∃ row ∈ g, getCell g (a : Int) (b : Int) ∈ row := by
  rw [getCell_nonneg_eq]
  by_cases ha : a < g.length
  · rw [List.getD_eq_getElem _ _ ha]
    have hrow : g[a] ∈ g := List.getElem_mem ha
    have hlen : g[a].length = size := hg.2 _ hrow
    by_cases hb : b < g[a].length
    · rw [List.getD_eq_getElem _ _ hb]
      exact Or.inr ⟨g[a], hrow, List.getElem_mem hb⟩
    · rw [List.getD_eq_default _ _ (by omega)]
      exact Or.inl rfl
  · rw [List.getD_eq_default g [] (by omega)]
    simp

theorem cells_prop_of_mem {size : Nat} {g : Grid} (hg : Shape size g)
    {P : Char → Prop} (h : ∀ row ∈ g, ∀ ch ∈ row, P ch)
    (hblank : P ' ') (a b : Nat) : P (getCell g (a : Int) (b : Int)) := by
  rcases getCell_cases hg a b with hc | ⟨row, hrow, hc⟩
  · rw [hc]; exact hblank
  · exact h row hrow _ hc

theorem mem_of_cells {size : Nat} {g : Grid} (hg : Shape size g)
    {P : Char → Prop} (h : ∀ a b : Nat, a < size → b < size → P (getCell g (a : Int) (b : Int))) :
    ∀ row ∈ g, ∀ ch ∈ row, P ch := by
  intro row hrow ch hch
  obtain ⟨a, ha, hrowa⟩ := List.getElem_of_mem hrow
  obtain ⟨b, hb, hchb⟩ := List.getElem_of_mem hch
  have ha' : a < size := by rw [← hg.1]; exact ha
  have hrlen : row.length = size := hg.2 _ hrow
  have hb' : b < size := by rw [← hrlen]; exact hb
  have : getCell g (a : Int) (b : Int) = ch := by
    rw [getCell_nonneg_eq]
    rw [List.getD_eq_getElem _ _ ha, hrowa, List.getD_eq_getElem _ _ hb, hchb]
  rw [← this]
  exact h a b ha' hb'

theorem placeStep_cellsOk {pick : List Cand → Cand} {size : Nat} {use_basic : Bool}
    {st : WSState} {w : List Char} (hw : AsciiWord w) (hcells : CellsOk st.grid) :
    CellsOk (placeStep pick size use_basic st w).grid := by
  cases hfind : find_best_position pick st.grid size (cleanWord w)
      (if use_basic then basicDirections else advancedDirections) with
  | none => rw [placeStep_none hfind]; exact hcells
  | some cg =>
    obtain ⟨c, g2⟩ := cg
    rw [placeStep_some hfind]
    show CellsOk g2
    rw [find_some_grid hfind]
    exact writeWord_cellsOk _ _ _ _ _ _ hcells (cleanWord_upper hw)

theorem placeLoop_cellsOk {pick : List Cand → Cand} {size : Nat} {use_basic : Bool} :
    ∀ (ws : List (List Char)) (st : WSState), (∀ w ∈ ws, AsciiWord w) →
    CellsOk st.grid → CellsOk (placeLoop pick size use_basic ws st).grid := by
  intro ws
  induction ws with
  | nil => intro st _ h; exact h
  | cons w ws ih =>
    intro st hws h
    exact ih _ (fun x hx => hws x (List.mem_cons_of_mem _ hx))
      (placeStep_cellsOk (hws w (List.mem_cons_self _ _)) h)

theorem placeLoop_cons {pick : List Cand → Cand} {size : Nat} {use_basic : Bool}
    (w : List Char) (ws : List (List Char)) (st : WSState) :
    placeLoop pick size use_basic (w :: ws) st =
      placeLoop pick size use_basic ws (placeStep pick size use_basic st w) := rfl

theorem placeStep_solution_mono {pick : List Cand → Cand} {size : Nat} {use_basic : Bool}
    {st : WSState} {w : List Char} {rec : List Char × Cand} (h : rec ∈ st.solution) :
    rec ∈ (placeStep pick size use_basic st w).solution := by
  cases hfind : find_best_position pick st.grid size (cleanWord w)
      (if use_basic then basicDirections else advancedDirections) with
  | none => rw [placeStep_none hfind]; exact h
  | some cg =>
    obtain ⟨c, g2⟩ := cg
    rw [placeStep_some hfind]
    exact List.mem_append_left _ h

theorem placeStep_failed_mono {pick : List Cand → Cand} {size : Nat} {use_basic : Bool}
    {st : WSState} {w : List Char} {x : List Char} (h : x ∈ st.failed) :
    x ∈ (placeStep pick size use_basic st w).failed := by
  cases hfind : find_best_position pick st.grid size (cleanWord w)
      (if use_basic then basicDirections else advancedDirections) with
  | none => rw [placeStep_none hfind]; exact List.mem_append_left _ h
  | some cg =>
    obtain ⟨c, g2⟩ := cg
    rw [placeStep_some hfind]
    exact h

theorem placeLoop_solution_mono {pick : List Cand → Cand} {size : Nat} {use_basic : Bool} :
    ∀ (ws : List (List Char)) (st : WSState) (rec : List Char × Cand),
    rec ∈ st.solution → rec ∈ (placeLoop pick size use_basic ws st).solution := by
  intro ws
  induction ws with
  | nil => intro st rec h; exact h
  | cons w ws ih =>
    intro st rec h
    exact ih _ rec (placeStep_solution_mono h)

theorem placeLoop_failed_mono {pick : List Cand → Cand} {size : Nat} {use_basic : Bool} :
    ∀ (ws : List (List Char)) (st : WSState) (x : List Char),
    x ∈ st.failed → x ∈ (placeLoop pick size use_basic ws st).failed := by
  intro ws
  induction ws with
  | nil => intro st x h; exact h
  | cons w ws ih =>
    intro st x h
    exact ih _ x (placeStep_failed_mono h)

theorem placeLoop_covers {pick : List Cand → Cand} {size : Nat} {use_basic : Bool} :
    ∀ (ws : List (List Char)) (st : WSState) (w : List Char), w ∈ ws →
    w ∈ (placeLoop pick size use_basic ws st).failed ∨
    ∃ rec ∈ (placeLoop pick size use_basic ws st).solution, rec.1 = cleanWord w := by
  intro ws
  induction ws with
  | nil => intro st w h; simp at h
  | cons x xs ih =>
    intro st w hw
    rcases List.mem_cons.mp hw with h | h
    · subst h
      rw [placeLoop_cons]
      cases hfind : find_best_position pick st.grid size (cleanWord w)
          (if use_basic then basicDirections else advancedDirections) with
      | none =>
        left
        apply placeLoop_failed_mono
        rw [placeStep_none hfind]
        exact List.mem_append_right _ (List.mem_singleton_self w)
      | some cg =>
        obtain ⟨c, g2⟩ := cg
        right
        refine ⟨(cleanWord w, c), ?_, rfl⟩
        apply placeLoop_solution_mono
        rw [placeStep_some hfind]
        exact List.mem_append_right _ (by simp)
    · rw [placeLoop_cons]
      exact ih _ w h

theorem placeLoop_failed_exists_none {pick : List Cand → Cand} {size : Nat}
    {use_basic : Bool} :
    ∀ (ws : List (List Char)) (st : WSState) (x : List Char),
    x ∈ (placeLoop pick size use_basic ws st).failed →
    x ∈ st.failed ∨ ∃ g : Grid, find_best_position pick g size (cleanWord x)
      (if use_basic then basicDirections else advancedDirections) = none := by
  intro ws
  induction ws with
  | nil => intro st x h; exact Or.inl h
  | cons w ws ih =>
    intro st x hx
    rw [placeLoop_cons] at hx
    rcases ih _ x hx with h | h
    · cases hfind : find_best_position pick st.grid size (cleanWord w)
          (if use_basic then basicDirections else advancedDirections) with
      | none =>
        rw [placeStep_none hfind] at h
        rcases List.mem_append.mp h with h2 | h2
        · exact Or.inl h2
        · rw [List.mem_singleton] at h2
          subst h2
          exact Or.inr ⟨st.grid, hfind⟩
      | some cg =>
        obtain ⟨c, g2⟩ := cg
        rw [placeStep_some hfind] at h
        exact Or.inl h
    · exact Or.inr h

theorem placeLoop_failed_of_none {pick : List Cand → Cand} {size : Nat} {use_basic : Bool}
    {w : List Char}
    (hw : ∀ g : Grid, find_best_position pick g size (cleanWord w)
      (if use_basic then basicDirections else advancedDirections) = none) :
    ∀ (ws : List (List Char)) (st : WSState), w ∈ ws →
    w ∈ (placeLoop pick size use_basic ws st).failed := by
  intro ws
  induction ws with
  | nil => intro st h; simp at h
  | cons x xs ih =>
    intro st hx
    rcases List.mem_cons.mp hx with h | h
    · subst h
      rw [placeLoop_cons]
      apply placeLoop_failed_mono
      rw [placeStep_none (hw st.grid)]
      exact List.mem_append_right _ (List.mem_singleton_self w)
    · rw [placeLoop_cons]
      exact ih _ h

theorem placeLoop_solution_sublist {pick : List Cand → Cand} {size : Nat}
    {use_basic : Bool} :
    ∀ (ws : List (List Char)) (st : WSState),
    List.Sublist ((placeLoop pick size use_basic ws st).solution.map Prod.fst)
      (st.solution.map Prod.fst ++ ws.map cleanWord) := by
  intro ws
  induction ws with
  | nil =>
    intro st
    simp only [List.map_nil, List.append_nil]
    exact List.Sublist.refl _
  | cons w ws ih =>
    intro st
    rw [placeLoop_cons]
    cases hfind : find_best_position pick st.grid size (cleanWord w)
        (if use_basic then basicDirections else advancedDirections) with
    | none =>
      rw [placeStep_none hfind]
      have h := ih { st with failed := st.failed ++ [w] }
      refine List.Sublist.trans h ?_
      simp only [List.map_cons]
      exact List.Sublist.append_left (List.sublist_cons_self _ _) _
    | some cg =>
      obtain ⟨c, g2⟩ := cg
      rw [placeStep_some hfind]
      have h := ih { st with grid := g2, solution := st.solution ++ [(cleanWord w, c)] }
      have heq : ((st.solution ++ [(cleanWord w, c)]).map Prod.fst) ++ ws.map cleanWord =
          st.solution.map Prod.fst ++ (cleanWord w :: ws.map cleanWord) := by
        simp
      rw [heq] at h
      simpa using h

/-! ## Stable sorting lemmas -/

theorem insertDesc_perm (x : List Char) :
    ∀ (l : List (List Char)), (insertDesc x l).Perm (x :: l) := by
  intro l
  induction l with
  | nil => exact List.Perm.refl _
  | cons y ys ih =>
    unfold insertDesc
    split
    · exact List.Perm.refl _
    · exact (List.Perm.cons y ih).trans (List.Perm.swap x y ys)

theorem sortWordsDesc_append (l : List (List Char)) (x : List Char) :
    sortWordsDesc (l ++ [x]) = insertDesc x (sortWordsDesc l) := by
  unfold sortWordsDesc
  rw [List.foldl_append]
  rfl

theorem sortWordsDesc_perm (l : List (List Char)) : (sortWordsDesc l).Perm l := by
  induction l using List.reverseRecOn with
  | nil => exact List.Perm.refl _
  | append_singleton l x ih =>
    rw [sortWordsDesc_append]
    exact ((insertDesc_perm x _).trans (List.Perm.cons x ih)).trans
      (List.perm_append_singleton x l).symm

theorem insertDesc_mem {x : List Char} {l : List (List Char)} {a : List Char}
    (h : a ∈ insertDesc x l) : a = x ∨ a ∈ l :=
  List.mem_cons.mp ((insertDesc_perm x l).subset h)

theorem insertDesc_sorted {x : List Char} :
    ∀ {l : List (List Char)}, l.Pairwise (fun a b => sortKey b ≤ sortKey a) →
    (insertDesc x l).Pairwise (fun a b => sortKey b ≤ sortKey a) := by
  intro l
  induction l with
  | nil => intro _; simp [insertDesc]
  | cons y ys ih =>
    intro h
    unfold insertDesc
    split
    · next hlt =>
      refine List.Pairwise.cons ?_ h
      intro z hz
      rcases List.mem_cons.mp hz with h2 | h2
      · subst h2; omega
      · have := (List.pairwise_cons.mp h).1 z h2
        omega
    · next hge =>
      have hys := (List.pairwise_cons.mp h).2
      refine List.Pairwise.cons ?_ (ih hys)
      intro z hz
      rcases insertDesc_mem hz with h2 | h2
      · subst h2; omega
      · exact (List.pairwise_cons.mp h).1 z h2

theorem sortWordsDesc_sorted (l : List (List Char)) :
    (sortWordsDesc l).Pairwise (fun a b => sortKey b ≤ sortKey a) := by
  induction l using List.reverseRecOn with
  | nil => simp [sortWordsDesc]
  | append_singleton l x ih =>
    rw [sortWordsDesc_append]
    exact insertDesc_sorted ih

theorem insertDesc_filter_pos {k : Nat} {x : List Char} (hx : sortKey x = k) :
    ∀ {l : List (List Char)}, l.Pairwise (fun a b => sortKey b ≤ sortKey a) →
    (insertDesc x l).filter (fun w => decide (sortKey w = k)) =
      l.filter (fun w => decide (sortKey w = k)) ++ [x] := by
  intro l
  induction l with
  | nil =>
    intro _
    simp [insertDesc, List.filter_cons, hx]
  | cons y ys ih =>
    intro h
    unfold insertDesc
    split
    · next hlt =>
      have hy : sortKey y ≠ k := by omega
      have hys : ∀ z ∈ ys, sortKey z ≠ k := by
        intro z hz
        have := (List.pairwise_cons.mp h).1 z hz
        omega
      rw [List.filter_cons_of_pos (by simpa using hx)]
      rw [List.filter_cons_of_neg (by simpa using hy)]
      have : ys.filter (fun w => decide (sortKey w = k)) = [] := by
        apply List.filter_eq_nil_iff.mpr
        intro z hz
        simpa using hys z hz
      rw [this]
      rfl
    · next hge =>
      have hys := (List.pairwise_cons.mp h).2
      by_cases hy : sortKey y = k
      · rw [List.filter_cons_of_pos (by simpa using hy),
          List.filter_cons_of_pos (by simpa using hy)]
        rw [ih hys]
        rfl
      · rw [List.filter_cons_of_neg (by simpa using hy),
          List.filter_cons_of_neg (by simpa using hy)]
        exact ih hys

theorem insertDesc_filter_neg {k : Nat} {x : List Char} (hx : sortKey x ≠ k) :
    ∀ (l : List (List Char)),
    (insertDesc x l).filter (fun w => decide (sortKey w = k)) =
      l.filter (fun w => decide (sortKey w = k)) := by
  intro l
  induction l with
  | nil => simp [insertDesc, List.filter_cons, hx]
  | cons y ys ih =>
    unfold insertDesc
    split
    · rw [List.filter_cons_of_neg (by simpa using hx)]
    · by_cases hy : sortKey y = k
      · rw [List.filter_cons_of_pos (by simpa using hy),
          List.filter_cons_of_pos (by simpa using hy), ih]
      · rw [List.filter_cons_of_neg (by simpa using hy),
          List.filter_cons_of_neg (by simpa using hy), ih]

theorem sortWordsDesc_stable (l : List (List Char)) (k : Nat) :
    (sortWordsDesc l).filter (fun w => decide (sortKey w = k)) =
      l.filter (fun w => decide (sortKey w = k)) := by
  induction l using List.reverseRecOn with
  | nil => simp [sortWordsDesc]
  | append_singleton l x ih =>
    rw [sortWordsDesc_append]
    by_cases hx : sortKey x = k
    · rw [insertDesc_filter_pos hx (sortWordsDesc_sorted l), ih, List.filter_append]
      rw [List.filter_cons_of_pos (by simpa using hx)]
      rfl
    · rw [insertDesc_filter_neg hx, ih, List.filter_append]
      rw [List.filter_cons_of_neg (by simpa using hx)]
      simp

/-! ## Claim-specific auxiliary lemmas -/

theorem wordSearchInit_failed (pick : List Cand → Cand) (letterAt : Nat → Nat → Char)
    (title : String) (wl : List (List Char)) (gs : Nat) (ub : Bool) :
    (wordSearchInit pick letterAt title wl gs ub).failed_words =
      (placeLoop pick gs ub (sortWordsDesc wl) ⟨create_grid gs, [], []⟩).failed := rfl

theorem wordSearchInit_solution (pick : List Cand → Cand) (letterAt : Nat → Nat → Char)
    (title : String) (wl : List (List Char)) (gs : Nat) (ub : Bool) :
    (wordSearchInit pick letterAt title wl gs ub).solution =
      (placeLoop pick gs ub (sortWordsDesc wl) ⟨create_grid gs, [], []⟩).solution := rfl

theorem wordSearchInit_grid (pick : List Cand → Cand) (letterAt : Nat → Nat → Char)
    (title : String) (wl : List (List Char)) (gs : Nat) (ub : Bool) :
    (wordSearchInit pick letterAt title wl gs ub).grid =
      fill_empty_spaces gs letterAt
        (placeLoop pick gs ub (sortWordsDesc wl) ⟨create_grid gs, [], []⟩).grid := rfl

theorem create_grid_cellsOk (size : Nat) : CellsOk (create_grid size) := by
  intro row hrow ch hch
  unfold create_grid at hrow
  rw [List.eq_of_mem_replicate hrow] at hch
  exact Or.inl (List.eq_of_mem_replicate hch)

theorem oversized_candOverlap_none {g : Grid} {size : Nat} {word : List Char}
    (hlen : size < word.length) {dirs : List (Int × Int)} (hdirs : ∀ d ∈ dirs, DirOk d) :
    ∀ c ∈ candidatesFor size dirs, candOverlap g size word c = none := by
  intro c hc
  have hmem := candidatesFor_mem hc
  obtain ⟨hdmem, hr0, hr1, hc0, hc1⟩ := hmem
  have hdo := hdirs _ hdmem
  have hnz : ¬(c.dr = 0 ∧ c.dc = 0) := hdo.1
  have hdr : c.dr = -1 ∨ c.dr = 0 ∨ c.dr = 1 := by have := hdo.2.1; omega
  have hdc : c.dc = -1 ∨ c.dc = 0 ∨ c.dc = 1 := by have := hdo.2.2; omega
  have hL : (size : Int) < (word.length : Int) := by exact_mod_cast hlen
  simp only [candOverlap, checkCandidate]
  rw [if_neg]
  rintro ⟨h1, h2, h3, h4⟩
  rcases hdr with h | h | h <;> rcases hdc with h' | h' | h' <;>
    rw [h] at h1 h2 <;> rw [h'] at h3 h4 <;>
    first
      | omega
      | exact hnz ⟨h, h'⟩

theorem emptyWord_cand_mem {size : Nat} (hsize : 2 ≤ size) (ub : Bool) :
    (⟨0, 1, 0, 1⟩ : Cand) ∈
      candidatesFor size (if ub then basicDirections else advancedDirections) := by
  unfold candidatesFor
  rw [List.mem_flatMap]
  refine ⟨(0, 1), ?_, ?_⟩
  · cases ub <;> simp [basicDirections, advancedDirections]
  · rw [List.mem_flatMap]
    refine ⟨0, List.mem_range.mpr (by omega), ?_⟩
    rw [List.mem_map]
    exact ⟨1, List.mem_range.mpr (by omega), rfl⟩

theorem emptyWord_cand_feasible {g : Grid} {size : Nat} (hsize : 2 ≤ size) :
    candOverlap g size [] ⟨0, 1, 0, 1⟩ = some 0 := by
  simp only [candOverlap, checkCandidate]
  rw [if_pos]
  · rfl
  · refine ⟨by simp, ?_, by simp, ?_⟩ <;> simp <;> omega

theorem emptyWord_find_some {pick : List Cand → Cand} {g : Grid} {size : Nat}
    (hsize : 2 ≤ size) (ub : Bool) :
    ∃ c : Cand, find_best_position pick g size []
      (if ub then basicDirections else advancedDirections) = some (c, g) := by
  have hne := find_some_of_feasible (emptyWord_cand_mem hsize ub)
    (emptyWord_cand_feasible (g := g) hsize)
  refine ⟨pick (bestPositions g size []
    (if ub then basicDirections else advancedDirections)).1, ?_⟩
  unfold find_best_position
  rw [if_neg hne]
  rfl

theorem emptyWord_size1_none {g : Grid} {ub : Bool} :
    ∀ c ∈ candidatesFor 1 (if ub then basicDirections else advancedDirections),
    candOverlap g 1 [] c = none := by
  intro c hc
  have hmem := candidatesFor_mem hc
  obtain ⟨hdmem, hr0, hr1, hc0, hc1⟩ := hmem
  have hdo := dirs_ok ub _ hdmem
  have hnz : ¬(c.dr = 0 ∧ c.dc = 0) := hdo.1
  simp only [candOverlap, checkCandidate, List.length_nil, Nat.cast_zero, zero_sub,
    mul_neg_one]
  rw [if_neg]
  rintro ⟨h1, h2, h3, h4⟩
  apply hnz
  constructor <;> [skip; skip] <;> push_cast at h1 h2 h3 h4 hr1 hc1 <;> omega

theorem toUpper_eq_space_iff (ch : Char) : ch.toUpper = ' ' ↔ ch = ' ' := by
  constructor
  · intro h
    replace h : (if ch.toNat ≥ 97 ∧ ch.toNat ≤ 122
        then Char.ofNat (ch.toNat - 32) else ch) = ' ' := h
    split at h
    · next hn =>
      exfalso
      have hv : Nat.isValidChar (ch.toNat - 32) := by left; omega
      have ht := char_toNat_ofNat _ hv
      rw [h] at ht
      have hsp : (' ').toNat = 32 := rfl
      omega
    · exact h
  · intro h
    subst h
    decide

theorem sortKey_eq_cleanWord_length (w : List Char) : sortKey w = (cleanWord w).length := by
  unfold sortKey cleanWord
  induction w with
  | nil => rfl
  | cons ch t ih =>
    simp only [List.map_cons, List.filter_cons]
    by_cases h : ch = ' '
    · subst h
      have hup : (' ').toUpper = ' ' := by decide
      rw [hup]
      simpa using ih
    · have hup : ch.toUpper ≠ ' ' := fun he => h ((toUpper_eq_space_iff ch).mp he)
      simp only [h, hup, decide_not, decide_False] at *
      simpa using ih

/-! ## Claim theorems -/

theorem defaultPick_mem : ∀ l : List Cand, l ≠ [] → defaultPick l ∈ l := by
  intro l hl
  cases l with
  | nil => exact absurd rfl hl
  | cons a t => exact List.mem_cons_self a t

/-- C1 (placement consistency): in any constructed puzzle, (i) every
input word absent from `failed_words` has a solution record carrying its
cleaned form; (ii) walking `length` cells from every record's start
along its direction deltas reproduces the recorded cleaned word exactly
on the final (post-fill) grid; (iii) the fill phase never overwrites a
non-blank (placed) cell. -/
theorem C1_placement_consistency (pick : List Cand → Cand) (letterAt : Nat → Nat → Char)
    (title : String) (word_list : List (List Char)) (grid_size : Nat) (use_basic : Bool)
    (Hpick : ∀ l : List Cand, l ≠ [] → pick l ∈ l) :
    (∀ w ∈ word_list,
      w ∉ (wordSearchInit pick letterAt title word_list grid_size use_basic).failed_words →
      ∃ rec ∈ (wordSearchInit pick letterAt title word_list grid_size use_basic).solution,
        rec.1 = cleanWord w) ∧
    (∀ rec ∈ (wordSearchInit pick letterAt title word_list grid_size use_basic).solution,
      ∀ i : Nat, i < rec.1.length →
      getCell (wordSearchInit pick letterAt title word_list grid_size use_basic).grid
        (rec.2.row + rec.2.dr * i) (rec.2.col + rec.2.dc * i) = rec.1.getD i ' ') ∧
    (∀ g : Grid, Shape grid_size g → ∀ r c : Int, getCell g r c ≠ ' ' →
      getCell (fill_empty_spaces grid_size letterAt g) r c = getCell g r c) := by
  have hshape0 : Shape grid_size (create_grid grid_size) := create_grid_shape _
  have hrecs0 : ∀ rec ∈ ([] : List (List Char × Cand)),
      GoodRecord grid_size (create_grid grid_size) rec := by
    intro rec h
    exact absurd h (List.not_mem_nil _)
  have hstshape : Shape grid_size
      (placeLoop pick grid_size use_basic (sortWordsDesc word_list)
        ⟨create_grid grid_size, [], []⟩).grid :=
    placeLoop_shape _ _ hshape0
  have hrecs := @placeLoop_goodRecords pick grid_size use_basic Hpick (sortWordsDesc word_list)
    ⟨create_grid grid_size, [], []⟩ hshape0 hrecs0
  refine ⟨?_, ?_, ?_⟩
  · intro w hw hnf
    rw [wordSearchInit_failed] at hnf
    rw [wordSearchInit_solution]
    have hw2 : w ∈ sortWordsDesc word_list := (sortWordsDesc_perm word_list).mem_iff.mpr hw
    rcases placeLoop_covers (sortWordsDesc word_list) ⟨create_grid grid_size, [], []⟩ w hw2
      with h | h
    · exact absurd h hnf
    · exact h
  · intro rec hrec i hi
    rw [wordSearchInit_solution] at hrec
    rw [wordSearchInit_grid]
    have hgr := hrecs rec hrec
    have hcell := (hgr.2.2 i hi).2
    have hne : getCell (placeLoop pick grid_size use_basic (sortWordsDesc word_list)
        ⟨create_grid grid_size, [], []⟩).grid
        (rec.2.row + rec.2.dr * i) (rec.2.col + rec.2.dc * i) ≠ ' ' := by
      rw [hcell]
      intro h
      have hm : rec.1.getD i ' ' ∈ rec.1 := by
        rw [List.getD_eq_getElem _ _ hi]
        exact List.getElem_mem hi
      rw [h] at hm
      exact hgr.2.1 hm
    rw [fill_preserves_nonblank hstshape letterAt _ _ hne]
    exact hcell
  · intro g hg r c hne
    exact fill_preserves_nonblank hg letterAt r c hne

/-- Witness for C1 at a concrete instance: the first letter of the one
record of a concrete puzzle is reproduced on the final grid. -/
theorem C1_placement_consistency_witness :
    getCell (wordSearchInit defaultPick defaultLetter "T" [['c', 'a', 't']] 3 true).grid
        ((0 : Int) + 0 * ((0 : Nat) : Int)) ((0 : Int) + 1 * ((0 : Nat) : Int)) =
      (['C', 'A', 'T'] : List Char).getD 0 ' ' :=
  (C1_placement_consistency defaultPick defaultLetter "T" [['c', 'a', 't']] 3 true
    defaultPick_mem).2.1 (['C', 'A', 'T'], ⟨0, 0, 0, 1⟩) (by decide) 0 (by decide)

/-- C2 (best-overlap greedy selection): whenever `_find_best_position`
places a word, the chosen candidate is feasible (its walk sees only
blanks or matching letters and its end cell is in bounds), its overlap
is the maximum over all feasible candidates, the tie list is exactly
the list of feasible candidates achieving that maximum, and the grid is
updated by writing the word along the chosen candidate. -/
theorem C2_best_overlap (pick : List Cand → Cand) (g : Grid) (size : Nat)
    (word : List Char) (dirs : List (Int × Int)) (c : Cand) (g2 : Grid)
    (Hpick : ∀ l : List Cand, l ≠ [] → pick l ∈ l)
    (h : find_best_position pick g size word dirs = some (c, g2)) :
    ∃ o : Nat,
      candOverlap g size word c = some o ∧
      c ∈ candidatesFor size dirs ∧
      c ∈ (bestPositions g size word dirs).1 ∧
      (∀ i : Nat, i < word.length →
        getCell g (c.row + c.dr * i) (c.col + c.dc * i) = ' ' ∨
        getCell g (c.row + c.dr * i) (c.col + c.dc * i) = word.getD i ' ') ∧
      InB size (c.row + c.dr * ((word.length : Int) - 1))
        (c.col + c.dc * ((word.length : Int) - 1)) ∧
      (∀ c' ∈ candidatesFor size dirs, ∀ o' : Nat,
        candOverlap g size word c' = some o' → o' ≤ o) ∧
      (bestPositions g size word dirs).1 =
        (candidatesFor size dirs).filter (matchesMax g size word (o : Int)) ∧
      g2 = writeWord g word c.row c.col c.dr c.dc := by
  obtain ⟨hcb, hg2⟩ := find_spec Hpick h
  obtain ⟨hcand, o, hov, hmax⟩ := best_mem_spec hcb
  have hunpack := candOverlap_some_unpack hov
  refine ⟨o, hov, hcand, hcb, ?_, ?_, ?_, ?_, hg2⟩
  · intro i hi
    exact walkOverlap_cells word c.row c.col o hunpack.1 i hi
  · exact ⟨hunpack.2.1, hunpack.2.2.1, hunpack.2.2.2.1, hunpack.2.2.2.2⟩
  · intro c' hc' o' hov'
    have := foldMax_ge g size word (candidatesFor size dirs) (-1) c' hc' o' hov'
    rw [← bestPositions_snd, ← hmax] at this
    exact_mod_cast this
  · rw [bestPositions_fst]
    rw [hmax, bestPositions_snd]

/-- Witness for C2 at a concrete instance. -/
theorem C2_best_overlap_witness :
    ∃ o : Nat,
      candOverlap (create_grid 2) 2 ['A', 'B'] ⟨0, 0, 0, 1⟩ = some o ∧
      (⟨0, 0, 0, 1⟩ : Cand) ∈ candidatesFor 2 basicDirections ∧
      (⟨0, 0, 0, 1⟩ : Cand) ∈ (bestPositions (create_grid 2) 2 ['A', 'B'] basicDirections).1 ∧
      (∀ i : Nat, i < (['A', 'B'] : List Char).length →
        getCell (create_grid 2) ((0 : Int) + 0 * i) ((0 : Int) + 1 * i) = ' ' ∨
        getCell (create_grid 2) ((0 : Int) + 0 * i) ((0 : Int) + 1 * i) =
          (['A', 'B'] : List Char).getD i ' ') ∧
      InB 2 ((0 : Int) + 0 * (((['A', 'B'] : List Char).length : Int) - 1))
        ((0 : Int) + 1 * (((['A', 'B'] : List Char).length : Int) - 1)) ∧
      (∀ c' ∈ candidatesFor 2 basicDirections, ∀ o' : Nat,
        candOverlap (create_grid 2) 2 ['A', 'B'] c' = some o' → o' ≤ o) ∧
      (bestPositions (create_grid 2) 2 ['A', 'B'] basicDirections).1 =
        (candidatesFor 2 basicDirections).filter
          (matchesMax (create_grid 2) 2 ['A', 'B'] (o : Int)) ∧
      [['A', 'B'], [' ', ' ']] = writeWord (create_grid 2) ['A', 'B'] 0 0 0 1 :=
  C2_best_overlap defaultPick (create_grid 2) 2 ['A', 'B'] basicDirections
    ⟨0, 0, 0, 1⟩ [['A', 'B'], [' ', ' ']] defaultPick_mem (by decide)

/-- C3 (code-bug evidence): `WordSearch.__init__` performs no argument
validation and has no error path.  With the non-positive grid size 0 it
silently proceeds, building a puzzle with an empty grid, an empty
solution and every word in `failed_words`; with an empty word list it
likewise proceeds and builds a pure-noise grid.  This contradicts the
specified fail-fast configuration error. -/
theorem C3_no_validation :
    (wordSearchInit defaultPick defaultLetter "T" [['A']] 0 true).grid = [] ∧
    (wordSearchInit defaultPick defaultLetter "T" [['A']] 0 true).failed_words = [['A']] ∧
    (wordSearchInit defaultPick defaultLetter "T" [['A']] 0 true).solution = [] ∧
    (wordSearchInit defaultPick defaultLetter "T" [] 3 true).failed_words = [] ∧
    (wordSearchInit defaultPick defaultLetter "T" [] 3 true).solution = [] := by
  refine ⟨?_, ?_, ?_, ?_, ?_⟩ <;> decide

/-- C4 (atomicity of failed placement): when no feasible candidate
exists for a word, the attempt leaves the grid and the solution list
exactly unchanged, appends the original (uncleaned) word to the failed
list, and the construction loop continues with the remaining words. -/
theorem C4_failed_atomicity (pick : List Cand → Cand) (size : Nat) (use_basic : Bool)
    (st : WSState) (w : List Char) (rest : List (List Char))
    (h : find_best_position pick st.grid size (cleanWord w)
      (if use_basic then basicDirections else advancedDirections) = none) :
    (placeStep pick size use_basic st w).grid = st.grid ∧
    (placeStep pick size use_basic st w).solution = st.solution ∧
    (placeStep pick size use_basic st w).failed = st.failed ++ [w] ∧
    placeLoop pick size use_basic (w :: rest) st =
      placeLoop pick size use_basic rest { st with failed := st.failed ++ [w] } := by
  rw [placeLoop_cons, placeStep_none h]
  exact ⟨rfl, rfl, rfl, rfl⟩

/-- Witness for C4 at a concrete instance. -/
theorem C4_failed_atomicity_witness :
    (placeStep defaultPick 1 true ⟨create_grid 1, [], []⟩ ['A', 'B']).grid = create_grid 1 ∧
    (placeStep defaultPick 1 true ⟨create_grid 1, [], []⟩ ['A', 'B']).solution = [] ∧
    (placeStep defaultPick 1 true ⟨create_grid 1, [], []⟩ ['A', 'B']).failed = [['A', 'B']] ∧
    placeLoop defaultPick 1 true [['A', 'B']] ⟨create_grid 1, [], []⟩ =
      placeLoop defaultPick 1 true [] ⟨create_grid 1, [], [['A', 'B']]⟩ :=
  C4_failed_atomicity defaultPick 1 true ⟨create_grid 1, [], []⟩ ['A', 'B'] [] (by decide)

/-- C5 (grid shape and alphabet invariant): for a positive grid size,
words made of letters and spaces, and a fill oracle drawing from the
uppercase alphabet, the constructed grid has exactly `size` rows of
`size` characters, every character is an uppercase A–Z letter, and no
blank sentinel remains. -/
theorem C5_grid_invariant (pick : List Cand → Cand) (letterAt : Nat → Nat → Char)
    (title : String) (word_list : List (List Char)) (grid_size : Nat) (use_basic : Bool)
    (hsize : 0 < grid_size)
    (hwords : ∀ w ∈ word_list, AsciiWord w)
    (hletter : ∀ r c : Nat, UpperChar (letterAt r c)) :
    (wordSearchInit pick letterAt title word_list grid_size use_basic).grid.length =
      grid_size ∧
    (∀ row ∈ (wordSearchInit pick letterAt title word_list grid_size use_basic).grid,
      row.length = grid_size) ∧
    (∀ row ∈ (wordSearchInit pick letterAt title word_list grid_size use_basic).grid,
      ∀ ch ∈ row, UpperChar ch) ∧
    (∀ row ∈ (wordSearchInit pick letterAt title word_list grid_size use_basic).grid,
      ' ' ∉ row) := by
  have hshape0 := create_grid_shape grid_size
  have hstshape : Shape grid_size
      (placeLoop pick grid_size use_basic (sortWordsDesc word_list)
        ⟨create_grid grid_size, [], []⟩).grid :=
    placeLoop_shape _ _ hshape0
  have hcells : CellsOk (placeLoop pick grid_size use_basic (sortWordsDesc word_list)
      ⟨create_grid grid_size, [], []⟩).grid :=
    placeLoop_cellsOk _ _
      (fun w hw => hwords w ((sortWordsDesc_perm word_list).mem_iff.mp hw))
      (create_grid_cellsOk _)
  have hfin : Shape grid_size
      (wordSearchInit pick letterAt title word_list grid_size use_basic).grid := by
    rw [wordSearchInit_grid]
    exact fill_shape hstshape letterAt
  have hupper : ∀ a b : Nat, a < grid_size → b < grid_size →
      UpperChar (getCell
        (wordSearchInit pick letterAt title word_list grid_size use_basic).grid
        (a : Int) (b : Int)) := by
    intro a b ha hb
    rw [wordSearchInit_grid, fill_getCell hstshape letterAt a b]
    split
    · exact hletter a b
    · next hcon =>
      have hc := cells_prop_of_mem hstshape hcells (Or.inl rfl) a b
      rcases hc with hblank | hok
      · exact absurd ⟨ha, hb, hblank⟩ hcon
      · exact hok
  refine ⟨hfin.1, hfin.2, mem_of_cells hfin hupper, ?_⟩
  have hns : ∀ row ∈ (wordSearchInit pick letterAt title word_list grid_size
      use_basic).grid, ∀ ch ∈ row, ch ≠ ' ' := by
    refine mem_of_cells (P := fun ch => ch ≠ ' ') hfin ?_
    intro a b ha hb he
    have := hupper a b ha hb
    rw [he] at this
    exact (by decide : ¬ UpperChar ' ') this
  intro row hrow hmem
  exact hns row hrow ' ' hmem rfl

/-- Witness for C5 at a concrete instance. -/
theorem C5_grid_invariant_witness :
    (wordSearchInit defaultPick defaultLetter "T" [['c', 'a', 't']] 2 true).grid.length =
      2 ∧
    (∀ row ∈ (wordSearchInit defaultPick defaultLetter "T" [['c', 'a', 't']] 2 true).grid,
      row.length = 2) ∧
    (∀ row ∈ (wordSearchInit defaultPick defaultLetter "T" [['c', 'a', 't']] 2 true).grid,
      ∀ ch ∈ row, UpperChar ch) ∧
    (∀ row ∈ (wordSearchInit defaultPick defaultLetter "T" [['c', 'a', 't']] 2 true).grid,
      ' ' ∉ row) :=
  C5_grid_invariant defaultPick defaultLetter "T" [['c', 'a', 't']] 2 true
    (by decide) (by decide) (fun _ _ => (by decide : UpperChar 'A'))

/-- C6 (longest-first stable ordering): the sort key is the cleaned
length, the sorted list is a permutation of the input, it is ordered by
key descending, ties keep the input's relative order (the filter at
every key value is unchanged), and the solution records follow the
sorted (longest-first) order, not the input order. -/
theorem C6_longest_first (pick : List Cand → Cand) (letterAt : Nat → Nat → Char)
    (title : String) (word_list : List (List Char)) (grid_size : Nat) (use_basic : Bool) :
    (∀ w : List Char, sortKey w = (cleanWord w).length) ∧
    (sortWordsDesc word_list).Perm word_list ∧
    (sortWordsDesc word_list).Pairwise (fun a b => sortKey b ≤ sortKey a) ∧
    (∀ k : Nat, (sortWordsDesc word_list).filter (fun w => decide (sortKey w = k)) =
      word_list.filter (fun w => decide (sortKey w = k))) ∧
    List.Sublist
      ((wordSearchInit pick letterAt title word_list grid_size use_basic).solution.map
        Prod.fst)
      ((sortWordsDesc word_list).map cleanWord) := by
  refine ⟨sortKey_eq_cleanWord_length, sortWordsDesc_perm _, sortWordsDesc_sorted _,
    fun k => sortWordsDesc_stable _ k, ?_⟩
  rw [wordSearchInit_solution]
  have h := @placeLoop_solution_sublist pick grid_size use_basic (sortWordsDesc word_list)
    ⟨create_grid grid_size, [], []⟩
  simpa using h

theorem placeLoop_basic_dirs {pick : List Cand → Cand} {size : Nat}
    (Hpick : ∀ l : List Cand, l ≠ [] → pick l ∈ l) :
    ∀ (ws : List (List Char)) (st : WSState),
    (∀ rec ∈ st.solution, (rec.2.dr, rec.2.dc) ∈ basicDirections) →
    ∀ rec ∈ (placeLoop pick size true ws st).solution,
      (rec.2.dr, rec.2.dc) ∈ basicDirections := by
  intro ws
  induction ws with
  | nil => intro st h; exact h
  | cons w ws ih =>
    intro st h
    rw [placeLoop_cons]
    apply ih
    intro rec hrec
    cases hfind : find_best_position pick st.grid size (cleanWord w)
        (if true then basicDirections else advancedDirections) with
    | none =>
      rw [placeStep_none hfind] at hrec
      exact h rec hrec
    | some cg =>
      obtain ⟨c, g2⟩ := cg
      rw [placeStep_some hfind] at hrec
      rcases List.mem_append.mp hrec with hold | hnew
      · exact h rec hold
      · rw [List.mem_singleton] at hnew
        subst hnew
        have hcb := (find_spec Hpick hfind).1
        have hcand := (best_mem_spec hcb).1
        have := (candidatesFor_mem hcand).1
        simpa using this

/-- C7 (basic-mode direction restriction): in basic mode every solution
record's direction delta is one of the 3 basic directions and never one
of the 5 advanced-only directions. -/
theorem C7_basic_mode (pick : List Cand → Cand) (letterAt : Nat → Nat → Char)
    (title : String) (word_list : List (List Char)) (grid_size : Nat)
    (Hpick : ∀ l : List Cand, l ≠ [] → pick l ∈ l) :
    ∀ rec ∈ (wordSearchInit pick letterAt title word_list grid_size true).solution,
      (rec.2.dr, rec.2.dc) ∈ basicDirections ∧
      (rec.2.dr, rec.2.dc) ∉
        ([((0 : Int), (-1 : Int)), (-1, 0), (-1, -1), (1, -1), (-1, 1)] :
          List (Int × Int)) := by
  intro rec hrec
  rw [wordSearchInit_solution] at hrec
  have hmem := placeLoop_basic_dirs Hpick (sortWordsDesc word_list)
    ⟨create_grid grid_size, [], []⟩
    (by intro r h; exact absurd h (List.not_mem_nil _)) rec hrec
  refine ⟨hmem, ?_⟩
  have hsep : ∀ p ∈ basicDirections,
      p ∉ ([((0 : Int), (-1 : Int)), (-1, 0), (-1, -1), (1, -1), (-1, 1)] :
        List (Int × Int)) := by decide
  exact hsep _ hmem

/-- Witness for C7 at a concrete instance: the one record of a concrete
basic-mode puzzle has a basic direction. -/
theorem C7_basic_mode_witness :
    ((0 : Int), (1 : Int)) ∈ basicDirections ∧
    ((0 : Int), (1 : Int)) ∉
      ([((0 : Int), (-1 : Int)), (-1, 0), (-1, -1), (1, -1), (-1, 1)] :
        List (Int × Int)) :=
  C7_basic_mode defaultPick defaultLetter "T" [['c', 'a', 't']] 3 defaultPick_mem
    (['C', 'A', 'T'], ⟨0, 0, 0, 1⟩) (by decide)

/-- C8 (oversized word always fails): a word whose cleaned form is
longer than the grid size has every candidate rejected by the end-cell
bounds check (in every direction of the mode's set, on any grid), and
therefore always ends up in `failed_words`. -/
theorem C8_oversized (pick : List Cand → Cand) (letterAt : Nat → Nat → Char)
    (title : String) (word_list : List (List Char)) (grid_size : Nat) (use_basic : Bool)
    (w : List Char) (hw : w ∈ word_list) (hlen : grid_size < (cleanWord w).length) :
    w ∈ (wordSearchInit pick letterAt title word_list grid_size use_basic).failed_words ∧
    (∀ g : Grid, ∀ c ∈ candidatesFor grid_size
        (if use_basic then basicDirections else advancedDirections),
      candOverlap g grid_size (cleanWord w) c = none) := by
  constructor
  · rw [wordSearchInit_failed]
    exact placeLoop_failed_of_none
      (fun g => find_none_of_no_feasible
        (oversized_candOverlap_none hlen (dirs_ok use_basic)))
      (sortWordsDesc word_list) ⟨create_grid grid_size, [], []⟩
      ((sortWordsDesc_perm word_list).mem_iff.mpr hw)
  · intro g c hc
    exact oversized_candOverlap_none hlen (dirs_ok use_basic) c hc

/-- Witness for C8 at a concrete instance. -/
theorem C8_oversized_witness :
    ['A', 'B'] ∈ (wordSearchInit defaultPick defaultLetter "T" [['A', 'B']] 1
      true).failed_words ∧
    (∀ g : Grid, ∀ c ∈ candidatesFor 1 (if true then basicDirections
        else advancedDirections),
      candOverlap g 1 (cleanWord ['A', 'B']) c = none) :=
  C8_oversized defaultPick defaultLetter "T" [['A', 'B']] 1 true ['A', 'B']
    (by decide) (by decide)

/-- C9 (formatter direction mapping): the formatter maps each of the 8
fixed delta pairs to exactly its canonical direction string, maps every
delta pair outside the 8 to the "unknown" marker, and
`parse_solution_entry` copies the word, start and length unchanged. -/
theorem C9_formatter_mapping :
    (directionString (inferDirection 0 1) = "horizontal_left_to_right" ∧
     directionString (inferDirection 0 (-1)) = "horizontal_right_to_left" ∧
     directionString (inferDirection 1 0) = "vertical_top_to_bottom" ∧
     directionString (inferDirection (-1) 0) = "vertical_bottom_to_top" ∧
     directionString (inferDirection 1 1) = "diagonal_top_left_to_bottom_right" ∧
     directionString (inferDirection (-1) 1) = "diagonal_bottom_left_to_top_right" ∧
     directionString (inferDirection 1 (-1)) = "diagonal_top_right_to_bottom_left" ∧
     directionString (inferDirection (-1) (-1)) = "diagonal_bottom_right_to_top_left") ∧
    (∀ dr dc : Int,
      (dr, dc) ∉ ([(0, 1), (0, -1), (1, 0), (-1, 0), (1, 1), (-1, 1), (1, -1), (-1, -1)] :
        List (Int × Int)) →
      directionString (inferDirection dr dc) = "unknown") ∧
    (∀ (word : List Char) (pos : Cand),
      (parse_solution_entry word pos).direction =
        directionString (inferDirection pos.dr pos.dc) ∧
      (parse_solution_entry word pos).word = word ∧
      (parse_solution_entry word pos).start = (pos.row, pos.col) ∧
      (parse_solution_entry word pos).length = word.length) := by
  refine ⟨by decide, ?_, ?_⟩
  · intro dr dc h
    unfold inferDirection
    split_ifs with h1 h2 h3 h4 h5 h6 h7 h8
    · rcases h1 with ⟨rfl, rfl⟩; exact absurd (by decide) h
    · rcases h2 with ⟨rfl, rfl⟩; exact absurd (by decide) h
    · rcases h3 with ⟨rfl, rfl⟩; exact absurd (by decide) h
    · rcases h4 with ⟨rfl, rfl⟩; exact absurd (by decide) h
    · rcases h5 with ⟨rfl, rfl⟩; exact absurd (by decide) h
    · rcases h6 with ⟨rfl, rfl⟩; exact absurd (by decide) h
    · rcases h7 with ⟨rfl, rfl⟩; exact absurd (by decide) h
    · rcases h8 with ⟨rfl, rfl⟩; exact absurd (by decide) h
    · rfl
  · intro word pos
    exact ⟨rfl, rfl, rfl, rfl⟩

/-- Witness for C9 at a concrete unmapped delta pair. -/
theorem C9_formatter_mapping_witness :
    directionString (inferDirection 2 5) = "unknown" :=
  C9_formatter_mapping.2.1 2 5 (by decide)

/-- C10 (empty-cleaned word): a word whose cleaned form is empty is
reported as placed on any grid of size at least 2 — the returned grid is
unchanged (nothing is written), a length-0 record is appended and the
word never reaches `failed_words` — whereas on a grid of size 1 every
end cell is out of bounds and the word always lands in `failed_words`. -/
theorem C10_empty_cleaned_word (pick : List Cand → Cand) (letterAt : Nat → Nat → Char)
    (title : String) (word_list : List (List Char)) (use_basic : Bool) (grid_size : Nat) :
    (∀ g : Grid, 2 ≤ grid_size →
      ∃ c : Cand, find_best_position pick g grid_size []
        (if use_basic then basicDirections else advancedDirections) = some (c, g)) ∧
    (2 ≤ grid_size → ∀ w ∈ word_list, cleanWord w = [] →
      w ∉ (wordSearchInit pick letterAt title word_list grid_size use_basic).failed_words ∧
      ∃ rec ∈ (wordSearchInit pick letterAt title word_list grid_size use_basic).solution,
        rec.1 = []) ∧
    (∀ w ∈ word_list, cleanWord w = [] →
      w ∈ (wordSearchInit pick letterAt title word_list 1 use_basic).failed_words) := by
  refine ⟨?_, ?_, ?_⟩
  · intro g h2
    exact emptyWord_find_some h2 use_basic
  · intro h2 w hw hcw
    have hnot : w ∉ (wordSearchInit pick letterAt title word_list grid_size
        use_basic).failed_words := by
      intro hmem
      rw [wordSearchInit_failed] at hmem
      rcases placeLoop_failed_exists_none (sortWordsDesc word_list)
          ⟨create_grid grid_size, [], []⟩ w hmem with h | ⟨g, hg⟩
      · exact absurd h (List.not_mem_nil _)
      · rw [hcw] at hg
        obtain ⟨c, hc⟩ := @emptyWord_find_some pick g grid_size h2 use_basic
        rw [hg] at hc
        exact absurd hc (by simp)
    refine ⟨hnot, ?_⟩
    have hw2 : w ∈ sortWordsDesc word_list := (sortWordsDesc_perm word_list).mem_iff.mpr hw
    rcases placeLoop_covers (sortWordsDesc word_list) ⟨create_grid grid_size, [], []⟩ w hw2
      with h | ⟨rec, hrec, he⟩
    · rw [← wordSearchInit_failed pick letterAt title word_list grid_size use_basic] at h
      exact absurd h hnot
    · rw [wordSearchInit_solution]
      exact ⟨rec, hrec, by rw [he, hcw]⟩
  · intro w hw hcw
    rw [wordSearchInit_failed]
    refine placeLoop_failed_of_none ?_ (sortWordsDesc word_list)
      ⟨create_grid 1, [], []⟩ ((sortWordsDesc_perm word_list).mem_iff.mpr hw)
    intro g
    apply find_none_of_no_feasible
    rw [hcw]
    exact emptyWord_size1_none

/-- Witness for C10 at a concrete instance. -/
theorem C10_empty_cleaned_word_witness :
    ([' ', ' '] ∉ (wordSearchInit defaultPick defaultLetter "T" [[' ', ' ']] 2
        true).failed_words ∧
      ∃ rec ∈ (wordSearchInit defaultPick defaultLetter "T" [[' ', ' ']] 2
        true).solution, rec.1 = []) ∧
    [' ', ' '] ∈ (wordSearchInit defaultPick defaultLetter "T" [[' ', ' ']] 1
      true).failed_words :=
  ⟨(C10_empty_cleaned_word defaultPick defaultLetter "T" [[' ', ' ']] true 2).2.1
      (by decide) [' ', ' '] (by decide) (by decide),
   (C10_empty_cleaned_word defaultPick defaultLetter "T" [[' ', ' ']] true 2).2.2
      [' ', ' '] (by decide) (by decide)⟩
